import Mathlib

/-!
Verification of the HackathonConcierge per-user assistant provisioning and
thread resolution services.

This file gives a shallow embedding of the relevant backend code:

* `app/services/user_assistant_service.py` (`UserAssistantService`):
  `get_user_assistant`, `create_assistant_for_user`, `_upload_shared_documents`,
  `_verify_documents_indexed`, `_store_user_assistant`, `get_or_create_assistant`;
* `app/services/supabase_session_store.py` (`SupabaseSessionStore`):
  `_get_or_create_user_assistant`, `_create_thread_async`, `get_thread`,
  `get_or_create_thread_async`, `create_new_thread`, `switch_thread`;
* the provisioning section of `_run_chat_mode` in `app/main.py`.

External effects (Supabase reads and writes, Backboard HTTP calls, the
progress callback, `asyncio.sleep`) are modelled by explicit environment
records that script each response, so the embedded functions are pure and
executable.  A Python exception is modelled by `Except`; an exception that
the code catches is consumed by the embedding exactly where the `except`
block sits in the source.

The per-user `asyncio.Lock` used by `get_or_create_assistant` is modelled
separately by a small-step interleaving system later in the file.
-/

namespace Concierge

/-- A progress event as passed to an `on_progress` callback:
`(step, message, current, total)`. -/
structure ProgressEvent where
  step : String
  message : String
  current : Nat
  total : Nat
deriving DecidableEq, Repr

/-- Kinds of Python exception surfaced by the embedded code. -/
inductive PyErr where
  /-- The progress callback raised and the exception propagated. -/
  | sinkError
  /-- An HTTP request failed (`raise_for_status` or transport error). -/
  | httpError
  /-- The Supabase mapping write failed and the error was re-raised. -/
  | storeError
deriving DecidableEq, Repr

/-- The progress callback: `true` means the invocation returned normally,
`false` means it raised.  `none` models `on_progress = None`. -/
abbrev Sink := Option (ProgressEvent → Bool)

/-- Whether invoking the sink on `e` completes without raising:
the code only calls the callback when it is not `None`. -/
def emitOk (sink : Sink) (e : ProgressEvent) : Bool :=
  match sink with
  | none => true
  | some f => f e

/-- Record an event in the trace only when a callback is actually installed. -/
def withEvent (sink : Sink) (e : ProgressEvent) (es : List ProgressEvent) :
    List ProgressEvent :=
  match sink with
  | none => es
  | some _ => e :: es

/-- A row of a Supabase table keyed by `user_id`: `(user_id, value)`. -/
abbrev Row := String × String

/-- The value stored for `uid`, reading the first matching row
(the code reads `data[0]` after filtering by `user_id=eq.{uid}`). -/
def lookupRow (table : List Row) (uid : String) : Option String :=
  (table.find? (fun r => r.1 == uid)).map (fun r => r.2)

/-- Number of rows a table holds for `uid`. -/
def countRows (table : List Row) (uid : String) : Nat :=
  (table.filter (fun r => r.1 == uid)).length

/-- A Supabase upsert (`Prefer: resolution=merge-duplicates`) on a table with
primary key `user_id`: an existing row for `uid` is overwritten in place,
otherwise a new row is appended. -/
def upsertRow (table : List Row) (uid v : String) : List Row :=
  if table.any (fun r => r.1 == uid) then
    table.map (fun r => if r.1 == uid then (uid, v) else r)
  else
    table ++ [(uid, v)]

/-- A Supabase blind insert (a plain POST without `merge-duplicates`) on a
table with primary key `user_id`: inserting over an existing row violates the
key constraint, the response is a 409 and `raise_for_status` raises. -/
def insertRow (table : List Row) (uid v : String) : Except PyErr (List Row) :=
  if table.any (fun r => r.1 == uid) then .error .httpError
  else .ok (table ++ [(uid, v)])

/-- A Supabase select filtered by `user_id=eq.{uid}`; `fault` scripts a
transport or status failure of this particular request. -/
def supabaseSelect (table : List Row) (fault : Bool) (uid : String) :
    Except PyErr (List Row) :=
  if fault then .error .httpError
  else .ok (table.filter (fun r => r.1 == uid))

/-- Embeds `UserAssistantService.get_user_assistant`: select the
`user_assistants` row for the user; any exception is caught, logged and
turned into `None`; an empty result is also `None`. -/
def getUserAssistant (table : List Row) (fault : Bool) (uid : String) :
    Option String :=
  match supabaseSelect table fault uid with
  | .error _ => none
  | .ok [] => none
  | .ok (r :: _) => some r.2

/-- One shared document from `SHARED_DOCUMENTS` together with its scripted
fate: whether `doc_path.exists()` and whether the upload POST succeeds. -/
structure DocSpec where
  name : String
  onDisk : Bool
  uploadOk : Bool
deriving DecidableEq, Repr

/-- The message interpolated for the upload progress event. -/
def uploadMsg (i total : Nat) : String :=
  "Loading knowledge base... (" ++ toString i ++ "/" ++ toString total ++ ")"

/-- Result of `_upload_shared_documents`: the progress events emitted, the
documents successfully uploaded to the assistant (its document set), and
whether an unguarded callback invocation raised. -/
structure UploadOutcome where
  events : List ProgressEvent
  uploaded : List String
  sinkRaised : Bool
deriving DecidableEq, Repr

/-- The loop body of `_upload_shared_documents`, iterating
`enumerate(SHARED_DOCUMENTS, 1)` from index `i`.  A missing file is logged
and skipped before any emission.  The progress emission is outside the
`try`, so a callback exception propagates and stops the loop.  The upload
itself is inside the `try`: an upload failure is logged and skipped. -/
def uploadDocsGo (sink : Sink) (total : Nat) : Nat → List DocSpec → UploadOutcome
  | _, [] => ⟨[], [], false⟩
  | i, d :: rest =>
    if !d.onDisk then uploadDocsGo sink total (i + 1) rest
    else
      let e : ProgressEvent := ⟨"uploading_docs", uploadMsg i total, i, total⟩
      if !(emitOk sink e) then ⟨withEvent sink e [], [], true⟩
      else
        let out := uploadDocsGo sink total (i + 1) rest
        { out with
            events := withEvent sink e out.events,
            uploaded := if d.uploadOk then d.name :: out.uploaded else out.uploaded }

/-- Embeds `UserAssistantService._upload_shared_documents`. -/
def uploadSharedDocuments (sink : Sink) (docs : List DocSpec) : UploadOutcome :=
  uploadDocsGo sink docs.length 1 docs

/-- One poll of `GET /assistants/{id}/documents`: either an HTTP failure or
the list of document statuses. -/
abbrev PollResult := Except Unit (List String)

/-- `sum(1 for d in docs if d.get("status") == "indexed")`. -/
def countIndexed (statuses : List String) : Nat :=
  (statuses.filter (fun s => s == "indexed")).length

/-- The message interpolated for the per-attempt verification event. -/
def verifyMsg (indexed total : Nat) : String :=
  "Indexing documents (" ++ toString indexed ++ "/" ++ toString total ++ ")..."

/-- Result of the polling loop of `_verify_documents_indexed`: the events
emitted by the loop body, whether all documents were seen indexed, the number
of poll attempts made, and the total seconds spent in `asyncio.sleep(5)`. -/
structure VerifyOutcome where
  events : List ProgressEvent
  converged : Bool
  attempts : Nat
  sleepSecs : Nat
deriving DecidableEq, Repr

/-- The `for attempt in range(18)` loop of `_verify_documents_indexed`,
polling from attempt `a` with `fuel` attempts left.  An HTTP failure of the
poll is caught, logged, and followed by the sleep.  The per-attempt progress
emission sits inside the same `try`: if the callback raises, the exception is
caught, the convergence check of that attempt is skipped, and the loop sleeps
and continues.  The loop returns `True` (before sleeping) as soon as a poll
reports a positive total with every document indexed. -/
def verifyGo (sink : Sink) (polls : Nat → PollResult) : Nat → Nat → VerifyOutcome
  | _, 0 => ⟨[], false, 0, 0⟩
  | a, fuel + 1 =>
    match polls a with
    | .error _ =>
      let out := verifyGo sink polls (a + 1) fuel
      ⟨out.events, out.converged, out.attempts + 1, out.sleepSecs + 5⟩
    | .ok statuses =>
      let total := statuses.length
      let indexed := countIndexed statuses
      let e : ProgressEvent := ⟨"verifying", verifyMsg indexed total, indexed, total⟩
      if emitOk sink e then
        if 0 < total ∧ indexed = total then ⟨withEvent sink e [], true, 1, 0⟩
        else
          let out := verifyGo sink polls (a + 1) fuel
          ⟨withEvent sink e out.events, out.converged, out.attempts + 1, out.sleepSecs + 5⟩
      else
        let out := verifyGo sink polls (a + 1) fuel
        ⟨withEvent sink e out.events, out.converged, out.attempts + 1, out.sleepSecs + 5⟩

/-- The initial event of `_verify_documents_indexed`, emitted before the loop. -/
def verifyInitEvent : ProgressEvent :=
  ⟨"verifying", "Verifying document indexing...", 0, 0⟩

/-- Embeds `UserAssistantService._verify_documents_indexed`: the initial
`verifying` emission is outside any `try`, so a callback exception there
propagates; then the bounded polling loop runs (18 attempts, 5s apart). -/
def verifyDocumentsIndexed (sink : Sink) (polls : Nat → PollResult) :
    Except PyErr VerifyOutcome :=
  if emitOk sink verifyInitEvent then
    let out := verifyGo sink polls 0 18
    .ok { out with events := withEvent sink verifyInitEvent out.events }
  else .error .sinkError

/-- Environment of one `create_assistant_for_user` run: the `user_assistants`
rows visible to its existing-assistant check, whether that read faults, the
response of `POST /assistants`, the shared documents with their fates, the
document list reported by each verification poll, and whether the final
mapping upsert faults. -/
structure ProvEnv where
  table : List Row
  readFault : Bool
  createResult : Except Unit String
  docs : List DocSpec
  polls : Nat → PollResult
  storeFault : Bool

instance {ε α : Type} [DecidableEq ε] [DecidableEq α] : DecidableEq (Except ε α) := fun x y =>
  match x, y with
  | .ok a, .ok b =>
    if h : a = b then .isTrue (by rw [h]) else .isFalse (by simp [h])
  | .error a, .error b =>
    if h : a = b then .isTrue (by rw [h]) else .isFalse (by simp [h])
  | .ok _, .error _ => .isFalse (by simp)
  | .error _, .ok _ => .isFalse (by simp)

/-- Outcome of one `create_assistant_for_user` run: the returned
`assistant_id` or the exception that escaped, the progress events emitted,
the `user_assistants` rows afterwards, the number of `POST /assistants`
requests issued, the documents uploaded to the new assistant, and the result
of the indexing verification when it was reached. -/
structure ProvOutcome where
  result : Except PyErr String
  events : List ProgressEvent
  table : List Row
  createCalls : Nat
  uploaded : List String
  verified : Option Bool
deriving DecidableEq, Repr

/-- The initial `creating_assistant` event. -/
def creatingEvent : ProgressEvent :=
  ⟨"creating_assistant", "Setting up your personal AI assistant...", 0, 0⟩

/-- Embeds `UserAssistantService.create_assistant_for_user`:
check for an existing assistant (any read failure behaves like a miss);
emit `creating_assistant` (unguarded); create the assistant upstream
(`raise_for_status` propagates); upload the shared documents; verify
indexing; upsert the `user_assistants` mapping (a write failure is
re-raised); return the new `assistant_id`. -/
def createAssistantForUser (env : ProvEnv) (uid : String) (sink : Sink) :
    ProvOutcome :=
  match getUserAssistant env.table env.readFault uid with
  | some a => ⟨.ok a, [], env.table, 0, [], none⟩
  | none =>
    if !(emitOk sink creatingEvent) then
      ⟨.error .sinkError, withEvent sink creatingEvent [], env.table, 0, [], none⟩
    else
      match env.createResult with
      | .error _ =>
        ⟨.error .httpError, withEvent sink creatingEvent [], env.table, 1, [], none⟩
      | .ok aid =>
        let up := uploadSharedDocuments sink env.docs
        if up.sinkRaised then
          ⟨.error .sinkError, withEvent sink creatingEvent up.events, env.table, 1,
            up.uploaded, none⟩
        else
          match verifyDocumentsIndexed sink env.polls with
          | .error pe =>
            ⟨.error pe, withEvent sink creatingEvent up.events, env.table, 1,
              up.uploaded, none⟩
          | .ok vr =>
            if env.storeFault then
              ⟨.error .storeError, withEvent sink creatingEvent (up.events ++ vr.events),
                env.table, 1, up.uploaded, some vr.converged⟩
            else
              ⟨.ok aid, withEvent sink creatingEvent (up.events ++ vr.events),
                upsertRow env.table uid aid, 1, up.uploaded, some vr.converged⟩

/-- Embeds `UserAssistantService.get_or_create_assistant` as run by a single
uncontended task: the fast-path lookup, then (under the per-user lock) the
re-check, then `create_assistant_for_user`.  Lock contention is modelled by
the small-step system below. -/
def getOrCreateAssistant (fastFault recheckFault : Bool) (env : ProvEnv)
    (uid : String) (sink : Sink) : ProvOutcome :=
  match getUserAssistant env.table fastFault uid with
  | some a => ⟨.ok a, [], env.table, 0, [], none⟩
  | none =>
    match getUserAssistant env.table recheckFault uid with
    | some a => ⟨.ok a, [], env.table, 0, [], none⟩
    | none => createAssistantForUser env uid sink

/-- An upstream Backboard call made by the thread resolver. -/
inductive UpCall where
  /-- `POST /assistants` succeeded and returned `aid` (auto-provisioning). -/
  | createAssistant (aid : String)
  /-- `POST /assistants/{aid}/threads` succeeded and returned `tid`. -/
  | createThread (aid tid : String)
deriving DecidableEq, Repr

/-- Environment of a `SupabaseSessionStore` thread resolution: the
`user_threads` rows seen by `get_thread`, whether that select faults, the
`user_assistants` rows seen by `_get_or_create_user_assistant`, whether that
select faults, the environment of a `create_assistant_for_user` call should
auto-provisioning run, the response of thread creation, and the
`user_threads` rows at the time of the final mapping write (a concurrent
writer may have added a row since the read). -/
structure ThreadEnv where
  userThreads : List Row
  getThreadFault : Bool
  uaTable : List Row
  uaReadFault : Bool
  prov : ProvEnv
  threadCreate : String → Except Unit String
  writeTable : List Row

/-- Embeds `SupabaseSessionStore._get_or_create_user_assistant`: read the
user's `user_assistants` row; an exception is caught and logged; when no
assistant is found (or the read failed), auto-provision by calling
`UserAssistantService.create_assistant_for_user` directly, with no progress
callback and without the provisioner's per-user lock.  Returns the result,
the number of `POST /assistants` calls made, and the upstream call trace. -/
def getOrCreateUserAssistant (env : ThreadEnv) (uid : String) :
    Except PyErr String × Nat × List UpCall :=
  match supabaseSelect env.uaTable env.uaReadFault uid with
  | .ok (r :: _) => (.ok r.2, 0, [])
  | _ =>
    let p := createAssistantForUser env.prov uid none
    match p.result with
    | .ok aid => (.ok aid, p.createCalls, [.createAssistant aid])
    | .error e => (.error e, p.createCalls, [])

/-- Embeds `SupabaseSessionStore._create_thread_async`: resolve the user's
assistant (auto-provisioning if needed), then create a Backboard thread
scoped to that assistant. -/
def createThreadAsync (env : ThreadEnv) (uid : String) :
    Except PyErr String × Nat × List UpCall :=
  match getOrCreateUserAssistant env uid with
  | (.error e, n, tr) => (.error e, n, tr)
  | (.ok aid, n, tr) =>
    match env.threadCreate aid with
    | .error _ => (.error .httpError, n, tr)
    | .ok tid => (.ok tid, n, tr ++ [.createThread aid tid])

/-- Embeds `SupabaseSessionStore.get_thread`: select the `user_threads` row;
unlike the assistant lookups, an exception here is re-raised. -/
def getThread (env : ThreadEnv) (uid : String) : Except PyErr (Option String) :=
  match supabaseSelect env.userThreads env.getThreadFault uid with
  | .error e => .error e
  | .ok [] => .ok none
  | .ok (r :: _) => .ok (some r.2)

/-- Outcome of a thread-store operation: the returned `thread_id` or escaped
exception, the `user_threads` rows afterwards, the number of upstream
assistant creations, and the upstream call trace. -/
structure ThreadOutcome where
  result : Except PyErr String
  table : List Row
  createCalls : Nat
  calls : List UpCall
deriving DecidableEq, Repr

/-- Embeds `SupabaseSessionStore.get_or_create_thread_async`: return the
mapped thread if one exists; otherwise create a thread on the user's
assistant and store the mapping with a plain POST carrying only the default
headers — a blind insert, which raises on a conflicting existing row. -/
def getOrCreateThreadAsync (env : ThreadEnv) (uid : String) : ThreadOutcome :=
  match getThread env uid with
  | .error e => ⟨.error e, env.writeTable, 0, []⟩
  | .ok (some tid) => ⟨.ok tid, env.writeTable, 0, []⟩
  | .ok none =>
    match createThreadAsync env uid with
    | (.error e, n, tr) => ⟨.error e, env.writeTable, n, tr⟩
    | (.ok tid, n, tr) =>
      match insertRow env.writeTable uid tid with
      | .error e => ⟨.error e, env.writeTable, n, tr⟩
      | .ok t2 => ⟨.ok tid, t2, n, tr⟩

/-- Embeds `SupabaseSessionStore.create_new_thread`: create a fresh thread on
the user's assistant and overwrite the `user_threads` mapping with an upsert
(`Prefer: resolution=merge-duplicates`). -/
def createNewThread (env : ThreadEnv) (uid : String) : ThreadOutcome :=
  match createThreadAsync env uid with
  | (.error e, n, tr) => ⟨.error e, env.writeTable, n, tr⟩
  | (.ok tid, n, tr) => ⟨.ok tid, upsertRow env.writeTable uid tid, n, tr⟩

/-- Embeds `SupabaseSessionStore.switch_thread`: upsert the user's
`user_threads` row to the given thread (`Prefer: resolution=merge-duplicates`)
and return the thread id; `writeFault` scripts a failing POST. -/
def switchThread (table : List Row) (writeFault : Bool) (uid tid : String) :
    Except PyErr (String × List Row) :=
  if writeFault then .error .httpError
  else .ok (tid, upsertRow table uid tid)

/-- Embeds `UserAssistantService._store_user_assistant` in isolation: the
mapping write uses `Prefer: resolution=merge-duplicates` (upsert); a failure
is logged and re-raised. -/
def storeUserAssistant (table : List Row) (writeFault : Bool) (uid aid : String) :
    Except PyErr (List Row) :=
  if writeFault then .error .storeError
  else .ok (upsertRow table uid aid)

/-- Environment of the provisioning section of `_run_chat_mode`: the
environment of the assistant provisioner, the fault scripts of the three
`user_assistants` reads made on this path, the thread-store environment, and
the websocket delivery of `send_provisioning` (`false`: the send raises). -/
structure ChatEnv where
  prov : ProvEnv
  mainReadFault : Bool
  fastFault : Bool
  recheckFault : Bool
  thread : ThreadEnv
  ws : ProgressEvent → Bool

/-- The `creating_thread` event emitted by `_run_chat_mode`. -/
def creatingThreadEvent : ProgressEvent :=
  ⟨"creating_thread", "Starting your conversation...", 0, 0⟩

/-- The `complete` event emitted by `_run_chat_mode`. -/
def completeEvent : ProgressEvent := ⟨"complete", "Ready!", 0, 0⟩

/-- Embeds the provisioning section of `_run_chat_mode` (`app/main.py`):
compute `needs_provisioning` from a `user_assistants` read; run
`get_or_create_assistant`, relaying progress over the websocket only on
first login; emit `creating_thread`; resolve the thread; emit `complete`.
Returns the events emitted and either `(assistant_id, thread_id)` or the
exception that escaped the provisioning section. -/
def runChatModeProvision (env : ChatEnv) (uid : String) :
    List ProgressEvent × Except PyErr (String × String) :=
  let needs := (getUserAssistant env.prov.table env.mainReadFault uid).isNone
  let sink : Sink := if needs then some env.ws else none
  let g := getOrCreateAssistant env.fastFault env.recheckFault env.prov uid sink
  match g.result with
  | .error e => (g.events, .error e)
  | .ok aid =>
    if needs && !(env.ws creatingThreadEvent) then
      (g.events ++ [creatingThreadEvent], .error .sinkError)
    else
      let evs1 := g.events ++ (if needs then [creatingThreadEvent] else [])
      match (getOrCreateThreadAsync env.thread uid).result with
      | .error e => (evs1, .error e)
      | .ok tid =>
        if needs && !(env.ws completeEvent) then
          (evs1 ++ [completeEvent], .error .sinkError)
        else
          (evs1 ++ (if needs then [completeEvent] else []), .ok (aid, tid))

/-!
Small-step interleaving model of same-process concurrency on one `user_id`.

Each task runs one of the two code paths that can provision an assistant,
with a scheduler able to switch tasks at every `await` point that touches
the shared state (the `user_assistants` store, the per-user `asyncio.Lock`,
and the upstream `POST /assistants` endpoint):

* a `get_or_create_assistant` task (`UserAssistantService`): fast-path read,
  lock acquisition, the re-check under the lock, the existing-assistant check
  inside `create_assistant_for_user`, the upstream creation, the mapping
  upsert, and the lock release at the end of the `async with` block;
* a `_get_or_create_user_assistant` task (`SupabaseSessionStore`): its
  `user_assistants` read, the check inside `create_assistant_for_user`, the
  upstream creation, and the mapping upsert — with no lock anywhere.

The store is reliable here (reads see exactly what was written; writes and
creations succeed); scripted faults are handled by the sequential model.
The `k`-th upstream creation returns assistant id `k`, so distinct creations
yield distinct assistant ids.
-/

/-- The program counter of one task. -/
inductive TState where
  /-- About to run the fast-path `get_user_assistant` read. -/
  | fastRead
  /-- Waiting to acquire the per-user lock. -/
  | waitLock
  /-- Holding the lock, about to run the re-check read. -/
  | recheck
  /-- Holding the lock, about to run `create_assistant_for_user`'s own
  existing-assistant read. -/
  | innerRead
  /-- Holding the lock, about to issue the upstream `POST /assistants`. -/
  | create
  /-- Holding the lock, about to upsert the mapping `a`. -/
  | storeWrite (a : Nat)
  /-- Holding the lock, about to leave the `async with` block. -/
  | release (a : Nat)
  /-- Returned assistant id `a`. -/
  | done (a : Nat)
  /-- Resolver task: about to run `_get_or_create_user_assistant`'s read. -/
  | rRead
  /-- Resolver task: about to run `create_assistant_for_user`'s read. -/
  | rRead2
  /-- Resolver task: about to issue the upstream `POST /assistants`. -/
  | rCreate
  /-- Resolver task: about to upsert the mapping `a`. -/
  | rStore (a : Nat)
  /-- Resolver task: returned assistant id `a`. -/
  | rDone (a : Nat)
deriving DecidableEq, Repr

/-- Shared state of one process working on one `user_id`: the tasks, the
stored `user_assistants` mapping, the holder of the per-user `asyncio.Lock`,
and the number of upstream `POST /assistants` calls made so far. -/
structure Sys (n : Nat) where
  tasks : Fin n → TState
  store : Option Nat
  lock : Option (Fin n)
  created : Nat

/-- One scheduler step of task `i`; `none` when `i` cannot move (blocked on
the lock or finished). -/
def stepTask {n : Nat} (i : Fin n) (s : Sys n) : Option (Sys n) :=
  match s.tasks i with
  | .fastRead =>
    match s.store with
    | some a => some { s with tasks := Function.update s.tasks i (.done a) }
    | none => some { s with tasks := Function.update s.tasks i .waitLock }
  | .waitLock =>
    match s.lock with
    | none => some { s with tasks := Function.update s.tasks i .recheck, lock := some i }
    | some _ => none
  | .recheck =>
    match s.store with
    | some a => some { s with tasks := Function.update s.tasks i (.done a), lock := none }
    | none => some { s with tasks := Function.update s.tasks i .innerRead }
  | .innerRead =>
    match s.store with
    | some a => some { s with tasks := Function.update s.tasks i (.done a), lock := none }
    | none => some { s with tasks := Function.update s.tasks i .create }
  | .create =>
    some { s with tasks := Function.update s.tasks i (.storeWrite s.created),
                  created := s.created + 1 }
  | .storeWrite a =>
    some { s with tasks := Function.update s.tasks i (.release a), store := some a }
  | .release a =>
    some { s with tasks := Function.update s.tasks i (.done a), lock := none }
  | .done _ => none
  | .rRead =>
    match s.store with
    | some a => some { s with tasks := Function.update s.tasks i (.rDone a) }
    | none => some { s with tasks := Function.update s.tasks i .rRead2 }
  | .rRead2 =>
    match s.store with
    | some a => some { s with tasks := Function.update s.tasks i (.rDone a) }
    | none => some { s with tasks := Function.update s.tasks i .rCreate }
  | .rCreate =>
    some { s with tasks := Function.update s.tasks i (.rStore s.created),
                  created := s.created + 1 }
  | .rStore a =>
    some { s with tasks := Function.update s.tasks i (.rDone a), store := some a }
  | .rDone _ => none

/-- The interleaving step relation: some task moves. -/
def SysStep {n : Nat} (s s2 : Sys n) : Prop := ∃ i, stepTask i s = some s2

/-- Reachability under any schedule. -/
def Reach {n : Nat} (s s2 : Sys n) : Prop := Relation.ReflTransGen SysStep s s2

/-- `n` concurrent `get_or_create_assistant` calls on a user with no stored
assistant: every task at its fast-path read, mapping absent, lock free, no
upstream call made yet. -/
def initLocked (n : Nat) : Sys n := ⟨fun _ => .fastRead, none, none, 0⟩

/-- `n` concurrent `_get_or_create_user_assistant` (thread resolver) calls on
a user with no stored assistant. -/
def initResolvers (n : Nat) : Sys n := ⟨fun _ => .rRead, none, none, 0⟩

/-- Run a schedule, skipping the turns of tasks that cannot move. -/
def runSched {n : Nat} : List (Fin n) → Sys n → Sys n
  | [], s => s
  | i :: rest, s =>
    match stepTask i s with
    | some s2 => runSched rest s2
    | none => runSched rest s

/-- Every schedule only reaches reachable states. -/
theorem runSched_reach {n : Nat} (l : List (Fin n)) (s : Sys n) :
    Reach s (runSched l s) := by
  induction l generalizing s with
  | nil => exact .refl
  | cons i rest ih =>
    cases h : stepTask i s with
    | none => simpa [runSched, h] using ih s
    | some s2 =>
      exact Relation.ReflTransGen.trans (.single ⟨i, h⟩)
        (by simpa [runSched, h] using ih s2)

/-- Whether a task has returned from `get_or_create_assistant`. -/
def isDone : TState → Bool
  | .done _ => true
  | _ => false

/-- Task states of the locked `get_or_create_assistant` path. -/
def lockedKind : TState → Bool
  | .fastRead | .waitLock | .recheck | .innerRead | .create
  | .storeWrite _ | .release _ | .done _ => true
  | _ => false

/-- Task states that hold the per-user lock. -/
def isHolder : TState → Bool
  | .recheck | .innerRead | .create | .storeWrite _ | .release _ => true
  | _ => false

/-- Task states a `get_or_create_assistant` task only reaches after an
upstream creation has happened in the process. -/
def postCreation : TState → Bool
  | .storeWrite _ | .release _ | .done _ => true
  | _ => false

/-- The inductive invariant of a population of `get_or_create_assistant`
tasks on one unprovisioned user: the lock field and the lock-holding states
agree (hence mutual exclusion); at most one upstream creation ever happens;
before it, the store is empty and no task has passed creation; after it,
every stored or returned assistant id is the id of the first creation; and
while the store is still empty the creator is mid-write and holds the lock. -/
structure LockedInv {n : Nat} (s : Sys n) : Prop where
  kinds : ∀ i, lockedKind (s.tasks i) = true
  holder_lock : ∀ i, isHolder (s.tasks i) = true → s.lock = some i
  lock_holder : ∀ i, s.lock = some i → isHolder (s.tasks i) = true
  created_le : s.created ≤ 1
  pre_store : s.created = 0 → s.store = none
  pre_tasks : s.created = 0 → ∀ i, postCreation (s.tasks i) = false
  val0 : s.created = 1 → ∀ i a,
    s.tasks i = .storeWrite a ∨ s.tasks i = .release a ∨ s.tasks i = .done a → a = 0
  store_val : ∀ a, s.store = some a → s.created = 1 ∧ a = 0
  no_create : s.created = 1 → ∀ i, s.tasks i ≠ .create ∧ s.tasks i ≠ .innerRead
  store_pending : s.created = 1 → s.store = none → ∃ i a, s.tasks i = .storeWrite a

/-- The initial state of `n` concurrent `get_or_create_assistant` calls
satisfies the invariant. -/
theorem lockedInv_init (n : Nat) : LockedInv (initLocked n) := by
  refine ⟨?_, ?_, ?_, ?_, ?_, ?_, ?_, ?_, ?_, ?_⟩ <;>
    simp [initLocked, lockedKind, isHolder, postCreation]

/-- The invariant is preserved by every scheduler step. -/
theorem lockedInv_step {n : Nat} {s s2 : Sys n} (h : LockedInv s) (hs : SysStep s s2) :
    LockedInv s2 := by
  obtain ⟨i, hi⟩ := hs
  have hkind := h.kinds i
  have hkinds_upd : ∀ (t : TState), lockedKind t = true →
      ∀ j, lockedKind (Function.update s.tasks i t j) = true := by
    intro t htk j
    by_cases hj : j = i
    · subst hj; rw [Function.update_same]; exact htk
    · rw [Function.update_noteq hj]; exact h.kinds j
  have hhold_lock : ∀ (t : TState), (isHolder t = true → s.lock = some i) →
      ∀ j, isHolder (Function.update s.tasks i t j) = true → s.lock = some j := by
    intro t hti j hj
    by_cases hj2 : j = i
    · subst hj2; rw [Function.update_same] at hj; exact hti hj
    · rw [Function.update_noteq hj2] at hj; exact h.holder_lock j hj
  have hlock_keep : ∀ (t : TState), (s.lock = some i → isHolder t = true) →
      ∀ j, s.lock = some j → isHolder (Function.update s.tasks i t j) = true := by
    intro t hti j hl
    by_cases hj : j = i
    · subst hj; rw [Function.update_same]; exact hti hl
    · rw [Function.update_noteq hj]; exact h.lock_holder j hl
  have hpre_upd : ∀ (t : TState), postCreation t = false → s.created = 0 →
      ∀ j, postCreation (Function.update s.tasks i t j) = false := by
    intro t htp h0 j
    by_cases hj : j = i
    · subst hj; rw [Function.update_same]; exact htp
    · rw [Function.update_noteq hj]; exact h.pre_tasks h0 j
  have hval0_upd : ∀ (t : TState),
      (∀ b, t = .storeWrite b ∨ t = .release b ∨ t = .done b → b = 0) →
      s.created = 1 → ∀ j b,
        Function.update s.tasks i t j = .storeWrite b ∨
          Function.update s.tasks i t j = .release b ∨
            Function.update s.tasks i t j = .done b → b = 0 := by
    intro t htv h1 j b hj
    by_cases hj2 : j = i
    · subst hj2; rw [Function.update_same] at hj; exact htv b hj
    · rw [Function.update_noteq hj2] at hj; exact h.val0 h1 j b hj
  have hnoc_upd : ∀ (t : TState), t ≠ .create → t ≠ .innerRead → s.created = 1 →
      ∀ j, Function.update s.tasks i t j ≠ .create ∧
        Function.update s.tasks i t j ≠ .innerRead := by
    intro t h1 h2 hc j
    by_cases hj : j = i
    · subst hj; rw [Function.update_same]; exact ⟨h1, h2⟩
    · rw [Function.update_noteq hj]; exact h.no_create hc j
  have hpend_upd : ∀ (t : TState), (∀ b, s.tasks i ≠ .storeWrite b) →
      (∃ j b, s.tasks j = .storeWrite b) →
      ∃ j b, Function.update s.tasks i t j = .storeWrite b := by
    intro t hti hex
    obtain ⟨j, b, hjw⟩ := hex
    have hj : j ≠ i := fun e => hti b (e ▸ hjw)
    exact ⟨j, b, by rw [Function.update_noteq hj]; exact hjw⟩
  cases ht : s.tasks i with
  | rRead => rw [ht] at hkind; simp [lockedKind] at hkind
  | rRead2 => rw [ht] at hkind; simp [lockedKind] at hkind
  | rCreate => rw [ht] at hkind; simp [lockedKind] at hkind
  | rStore a => rw [ht] at hkind; simp [lockedKind] at hkind
  | rDone a => rw [ht] at hkind; simp [lockedKind] at hkind
  | done a =>
    have heq : stepTask i s = none := by simp [stepTask, ht]
    rw [heq] at hi
    cases hi
  | fastRead =>
    cases hst : s.store with
    | some a =>
      obtain ⟨hc1, ha0⟩ := h.store_val a hst
      subst ha0
      have heq : stepTask i s =
          some { s with tasks := Function.update s.tasks i (TState.done 0) } := by
        simp [stepTask, ht, hst]
      rw [heq] at hi
      injection hi with hi
      subst hi
      refine ⟨?_, ?_, ?_, ?_, ?_, ?_, ?_, ?_, ?_, ?_⟩
      · exact hkinds_upd _ rfl
      · exact hhold_lock _ (by intro hh; simp [isHolder] at hh)
      · exact hlock_keep _ (by
          intro hl
          have := h.lock_holder i hl
          rw [ht] at this
          simp [isHolder] at this)
      · exact h.created_le
      · intro h0
        exact absurd (show s.created = 0 from h0) (by omega)
      · intro h0
        exact absurd (show s.created = 0 from h0) (by omega)
      · exact hval0_upd _ (by
          intro b hb
          rcases hb with hb | hb | hb
          · cases hb
          · cases hb
          · injection hb with hb2
            omega)
      · exact h.store_val
      · exact hnoc_upd _ (by simp) (by simp)
      · intro h1 hnone
        have hnone2 : s.store = none := hnone
        rw [hst] at hnone2
        cases hnone2
    | none =>
      have heq : stepTask i s =
          some { s with tasks := Function.update s.tasks i TState.waitLock } := by
        simp [stepTask, ht, hst]
      rw [heq] at hi
      injection hi with hi
      subst hi
      refine ⟨?_, ?_, ?_, ?_, ?_, ?_, ?_, ?_, ?_, ?_⟩
      · exact hkinds_upd _ rfl
      · exact hhold_lock _ (by intro hh; simp [isHolder] at hh)
      · exact hlock_keep _ (by
          intro hl
          have := h.lock_holder i hl
          rw [ht] at this
          simp [isHolder] at this)
      · exact h.created_le
      · exact h.pre_store
      · intro h0 j
        exact hpre_upd TState.waitLock rfl (show s.created = 0 from h0) j
      · exact hval0_upd _ (by
          intro b hb
          rcases hb with hb | hb | hb <;> cases hb)
      · exact h.store_val
      · exact hnoc_upd _ (by simp) (by simp)
      · intro h1 hnone
        exact hpend_upd _ (by intro b hb; rw [ht] at hb; cases hb)
          (h.store_pending (show s.created = 1 from h1) (show s.store = none from hnone))
  | waitLock =>
    cases hlk : s.lock with
    | some k =>
      have heq : stepTask i s = none := by simp [stepTask, ht, hlk]
      rw [heq] at hi
      cases hi
    | none =>
      have heq : stepTask i s =
          some { s with tasks := Function.update s.tasks i TState.recheck,
                        lock := some i } := by
        simp [stepTask, ht, hlk]
      rw [heq] at hi
      injection hi with hi
      subst hi
      refine ⟨?_, ?_, ?_, ?_, ?_, ?_, ?_, ?_, ?_, ?_⟩
      · exact hkinds_upd _ rfl
      · intro j hj
        by_cases hj2 : j = i
        · subst hj2; rfl
        · have hj3 : isHolder (Function.update s.tasks i TState.recheck j) = true := hj
          rw [Function.update_noteq hj2] at hj3
          have := h.holder_lock j hj3
          rw [hlk] at this
          cases this
      · intro j hl
        have hl2 : (some i : Option (Fin n)) = some j := hl
        injection hl2 with hl2
        subst hl2
        show isHolder (Function.update s.tasks i TState.recheck i) = true
        rw [Function.update_same]
        rfl
      · exact h.created_le
      · exact h.pre_store
      · intro h0 j
        exact hpre_upd TState.recheck rfl (show s.created = 0 from h0) j
      · exact hval0_upd _ (by
          intro b hb
          rcases hb with hb | hb | hb <;> cases hb)
      · exact h.store_val
      · exact hnoc_upd _ (by simp) (by simp)
      · intro h1 hnone
        exact hpend_upd _ (by intro b hb; rw [ht] at hb; cases hb)
          (h.store_pending (show s.created = 1 from h1) (show s.store = none from hnone))
  | recheck =>
    cases hst : s.store with
    | some a =>
      obtain ⟨hc1, ha0⟩ := h.store_val a hst
      subst ha0
      have heq : stepTask i s =
          some { s with tasks := Function.update s.tasks i (TState.done 0),
                        lock := none } := by
        simp [stepTask, ht, hst]
      rw [heq] at hi
      injection hi with hi
      subst hi
      refine ⟨?_, ?_, ?_, ?_, ?_, ?_, ?_, ?_, ?_, ?_⟩
      · exact hkinds_upd _ rfl
      · intro j hj
        by_cases hj2 : j = i
        · subst hj2
          have hj3 : isHolder (Function.update s.tasks j (TState.done 0) j) = true := hj
          rw [Function.update_same] at hj3
          simp [isHolder] at hj3
        · have hj3 : isHolder (Function.update s.tasks i (TState.done 0) j) = true := hj
          rw [Function.update_noteq hj2] at hj3
          have hlj := h.holder_lock j hj3
          have hli := h.holder_lock i (by rw [ht]; rfl)
          rw [hli] at hlj
          injection hlj with hlj
          exact absurd hlj.symm hj2
      · intro j hl
        have hl2 : (none : Option (Fin n)) = some j := hl
        cases hl2
      · exact h.created_le
      · intro h0
        exact absurd (show s.created = 0 from h0) (by omega)
      · intro h0
        exact absurd (show s.created = 0 from h0) (by omega)
      · exact hval0_upd _ (by
          intro b hb
          rcases hb with hb | hb | hb
          · cases hb
          · cases hb
          · injection hb with hb2
            omega)
      · exact h.store_val
      · exact hnoc_upd _ (by simp) (by simp)
      · intro h1 hnone
        have hnone2 : s.store = none := hnone
        rw [hst] at hnone2
        cases hnone2
    | none =>
      have heq : stepTask i s =
          some { s with tasks := Function.update s.tasks i TState.innerRead } := by
        simp [stepTask, ht, hst]
      rw [heq] at hi
      injection hi with hi
      subst hi
      have hc0 : s.created = 0 := by
        by_cases hc : s.created = 1
        · obtain ⟨j, b, hjw⟩ := h.store_pending hc hst
          have hlj := h.holder_lock j (by rw [hjw]; rfl)
          have hli := h.holder_lock i (by rw [ht]; rfl)
          rw [hli] at hlj
          injection hlj with hlj
          rw [← hlj, ht] at hjw
          cases hjw
        · have := h.created_le
          omega
      refine ⟨?_, ?_, ?_, ?_, ?_, ?_, ?_, ?_, ?_, ?_⟩
      · exact hkinds_upd _ rfl
      · exact hhold_lock _ (fun _ => h.holder_lock i (by rw [ht]; rfl))
      · exact hlock_keep _ (fun _ => rfl)
      · exact h.created_le
      · exact h.pre_store
      · intro h0 j
        exact hpre_upd TState.innerRead rfl (show s.created = 0 from h0) j
      · intro h1
        exact absurd (show s.created = 1 from h1) (by omega)
      · exact h.store_val
      · intro h1
        exact absurd (show s.created = 1 from h1) (by omega)
      · intro h1
        exact absurd (show s.created = 1 from h1) (by omega)
  | innerRead =>
    cases hst : s.store with
    | some a =>
      obtain ⟨hc1, ha0⟩ := h.store_val a hst
      subst ha0
      have heq : stepTask i s =
          some { s with tasks := Function.update s.tasks i (TState.done 0),
                        lock := none } := by
        simp [stepTask, ht, hst]
      rw [heq] at hi
      injection hi with hi
      subst hi
      refine ⟨?_, ?_, ?_, ?_, ?_, ?_, ?_, ?_, ?_, ?_⟩
      · exact hkinds_upd _ rfl
      · intro j hj
        by_cases hj2 : j = i
        · subst hj2
          have hj3 : isHolder (Function.update s.tasks j (TState.done 0) j) = true := hj
          rw [Function.update_same] at hj3
          simp [isHolder] at hj3
        · have hj3 : isHolder (Function.update s.tasks i (TState.done 0) j) = true := hj
          rw [Function.update_noteq hj2] at hj3
          have hlj := h.holder_lock j hj3
          have hli := h.holder_lock i (by rw [ht]; rfl)
          rw [hli] at hlj
          injection hlj with hlj
          exact absurd hlj.symm hj2
      · intro j hl
        have hl2 : (none : Option (Fin n)) = some j := hl
        cases hl2
      · exact h.created_le
      · intro h0
        exact absurd (show s.created = 0 from h0) (by omega)
      · intro h0
        exact absurd (show s.created = 0 from h0) (by omega)
      · exact hval0_upd _ (by
          intro b hb
          rcases hb with hb | hb | hb
          · cases hb
          · cases hb
          · injection hb with hb2
            omega)
      · exact h.store_val
      · exact hnoc_upd _ (by simp) (by simp)
      · intro h1 hnone
        have hnone2 : s.store = none := hnone
        rw [hst] at hnone2
        cases hnone2
    | none =>
      have heq : stepTask i s =
          some { s with tasks := Function.update s.tasks i TState.create } := by
        simp [stepTask, ht, hst]
      rw [heq] at hi
      injection hi with hi
      subst hi
      have hc0 : s.created = 0 := by
        by_cases hc : s.created = 1
        · obtain ⟨j, b, hjw⟩ := h.store_pending hc hst
          have hlj := h.holder_lock j (by rw [hjw]; rfl)
          have hli := h.holder_lock i (by rw [ht]; rfl)
          rw [hli] at hlj
          injection hlj with hlj
          rw [← hlj, ht] at hjw
          cases hjw
        · have := h.created_le
          omega
      refine ⟨?_, ?_, ?_, ?_, ?_, ?_, ?_, ?_, ?_, ?_⟩
      · exact hkinds_upd _ rfl
      · exact hhold_lock _ (fun _ => h.holder_lock i (by rw [ht]; rfl))
      · exact hlock_keep _ (fun _ => rfl)
      · exact h.created_le
      · exact h.pre_store
      · intro h0 j
        exact hpre_upd TState.create rfl (show s.created = 0 from h0) j
      · intro h1
        exact absurd (show s.created = 1 from h1) (by omega)
      · exact h.store_val
      · intro h1
        exact absurd (show s.created = 1 from h1) (by omega)
      · intro h1
        exact absurd (show s.created = 1 from h1) (by omega)
  | create =>
    have heq : stepTask i s =
        some { s with tasks := Function.update s.tasks i (TState.storeWrite s.created),
                      created := s.created + 1 } := by
      simp [stepTask, ht]
    rw [heq] at hi
    injection hi with hi
    subst hi
    have hc0 : s.created = 0 := by
      by_cases hc : s.created = 1
      · exact absurd ht (h.no_create hc i).1
      · have := h.created_le
        omega
    have hstore : s.store = none := h.pre_store hc0
    refine ⟨?_, ?_, ?_, ?_, ?_, ?_, ?_, ?_, ?_, ?_⟩
    · exact hkinds_upd _ rfl
    · exact hhold_lock _ (fun _ => h.holder_lock i (by rw [ht]; rfl))
    · exact hlock_keep _ (fun _ => rfl)
    · show s.created + 1 ≤ 1
      omega
    · intro h0
      exact hstore
    · intro h0
      exact absurd (show s.created + 1 = 0 from h0) (by omega)
    · intro h1 j b hj
      by_cases hj2 : j = i
      · subst hj2
        have hj3 : Function.update s.tasks j (TState.storeWrite s.created) j = .storeWrite b ∨
            Function.update s.tasks j (TState.storeWrite s.created) j = .release b ∨
              Function.update s.tasks j (TState.storeWrite s.created) j = .done b := hj
        rw [Function.update_same] at hj3
        rcases hj3 with hb | hb | hb
        · injection hb with hb2
          omega
        · cases hb
        · cases hb
      · have hj3 : Function.update s.tasks i (TState.storeWrite s.created) j = .storeWrite b ∨
            Function.update s.tasks i (TState.storeWrite s.created) j = .release b ∨
              Function.update s.tasks i (TState.storeWrite s.created) j = .done b := hj
        rw [Function.update_noteq hj2] at hj3
        have hpost : postCreation (s.tasks j) = true := by
          rcases hj3 with hb | hb | hb <;> rw [hb] <;> rfl
        rw [h.pre_tasks hc0 j] at hpost
        cases hpost
    · intro b hb
      have hb2 : s.store = some b := hb
      rw [hstore] at hb2
      cases hb2
    · intro h1 j
      by_cases hj : j = i
      · subst hj
        constructor
        · show Function.update s.tasks j (TState.storeWrite s.created) j ≠ .create
          rw [Function.update_same]
          simp
        · show Function.update s.tasks j (TState.storeWrite s.created) j ≠ .innerRead
          rw [Function.update_same]
          simp
      · constructor
        · show Function.update s.tasks i (TState.storeWrite s.created) j ≠ .create
          rw [Function.update_noteq hj]
          intro hc
          have hlj := h.holder_lock j (by rw [hc]; rfl)
          have hli := h.holder_lock i (by rw [ht]; rfl)
          rw [hli] at hlj
          injection hlj with hlj
          exact hj hlj.symm
        · show Function.update s.tasks i (TState.storeWrite s.created) j ≠ .innerRead
          rw [Function.update_noteq hj]
          intro hc
          have hlj := h.holder_lock j (by rw [hc]; rfl)
          have hli := h.holder_lock i (by rw [ht]; rfl)
          rw [hli] at hlj
          injection hlj with hlj
          exact hj hlj.symm
    · intro h1 hnone
      exact ⟨i, s.created,
        show Function.update s.tasks i (TState.storeWrite s.created) i =
            TState.storeWrite s.created from Function.update_same i _ s.tasks⟩
  | storeWrite a =>
    have heq : stepTask i s =
        some { s with tasks := Function.update s.tasks i (TState.release a),
                      store := some a } := by
      simp [stepTask, ht]
    rw [heq] at hi
    injection hi with hi
    subst hi
    have hc1 : s.created = 1 := by
      by_cases hc : s.created = 0
      · have := h.pre_tasks hc i
        rw [ht] at this
        simp [postCreation] at this
      · have := h.created_le
        omega
    have ha0 : a = 0 := h.val0 hc1 i a (Or.inl ht)
    subst ha0
    refine ⟨?_, ?_, ?_, ?_, ?_, ?_, ?_, ?_, ?_, ?_⟩
    · exact hkinds_upd _ rfl
    · exact hhold_lock _ (fun _ => h.holder_lock i (by rw [ht]; rfl))
    · exact hlock_keep _ (fun _ => rfl)
    · exact h.created_le
    · intro h0
      exact absurd (show s.created = 0 from h0) (by omega)
    · intro h0
      exact absurd (show s.created = 0 from h0) (by omega)
    · exact hval0_upd _ (by
        intro b hb
        rcases hb with hb | hb | hb
        · cases hb
        · injection hb with hb2
          omega
        · cases hb)
    · intro b hb
      have hb2 : (some 0 : Option Nat) = some b := hb
      injection hb2 with hb2
      exact ⟨hc1, hb2.symm⟩
    · exact hnoc_upd _ (by simp) (by simp)
    · intro h1 hnone
      have hnone2 : (some 0 : Option Nat) = none := hnone
      cases hnone2
  | release a =>
    have heq : stepTask i s =
        some { s with tasks := Function.update s.tasks i (TState.done a),
                      lock := none } := by
      simp [stepTask, ht]
    rw [heq] at hi
    injection hi with hi
    subst hi
    have hc1 : s.created = 1 := by
      by_cases hc : s.created = 0
      · have := h.pre_tasks hc i
        rw [ht] at this
        simp [postCreation] at this
      · have := h.created_le
        omega
    have ha0 : a = 0 := h.val0 hc1 i a (Or.inr (Or.inl ht))
    subst ha0
    refine ⟨?_, ?_, ?_, ?_, ?_, ?_, ?_, ?_, ?_, ?_⟩
    · exact hkinds_upd _ rfl
    · intro j hj
      by_cases hj2 : j = i
      · subst hj2
        have hj3 : isHolder (Function.update s.tasks j (TState.done 0) j) = true := hj
        rw [Function.update_same] at hj3
        simp [isHolder] at hj3
      · have hj3 : isHolder (Function.update s.tasks i (TState.done 0) j) = true := hj
        rw [Function.update_noteq hj2] at hj3
        have hlj := h.holder_lock j hj3
        have hli := h.holder_lock i (by rw [ht]; rfl)
        rw [hli] at hlj
        injection hlj with hlj
        exact absurd hlj.symm hj2
    · intro j hl
      have hl2 : (none : Option (Fin n)) = some j := hl
      cases hl2
    · exact h.created_le
    · intro h0
      exact absurd (show s.created = 0 from h0) (by omega)
    · intro h0
      exact absurd (show s.created = 0 from h0) (by omega)
    · exact hval0_upd _ (by
        intro b hb
        rcases hb with hb | hb | hb
        · cases hb
        · cases hb
        · injection hb with hb2
          omega)
    · exact h.store_val
    · exact hnoc_upd _ (by simp) (by simp)
    · intro h1 hnone
      exact hpend_upd _ (by intro b hb; rw [ht] at hb; cases hb)
        (h.store_pending (show s.created = 1 from h1) (show s.store = none from hnone))
/-- The invariant holds in every state reachable from the initial one. -/
theorem lockedInv_reach {n : Nat} {s : Sys n} (hr : Reach (initLocked n) s) :
    LockedInv s := by
  induction hr with
  | refl => exact lockedInv_init n
  | tail _ hstep ih => exact lockedInv_step ih hstep

/-- C1: for every user, any number `n ≥ 1` of concurrent or sequential
`get_or_create_assistant` calls within one process — under any interleaving
of their store reads, lock operations, upstream creation and mapping write —
return the same assistant id in every call, and exactly one upstream
assistant-creation call is made.  In particular, a schedule that runs a
second call entirely after the first covers the sequential case: the second
call returns the same id having added no upstream call to the single one. -/
theorem claim_C1_resolve_idempotent (n : Nat) (hn : 0 < n) (s : Sys n)
    (hr : Reach (initLocked n) s) (hdone : ∀ i, isDone (s.tasks i) = true) :
    s.created = 1 ∧ ∀ i, s.tasks i = TState.done 0 := by
  have hinv := lockedInv_reach hr
  have hall : ∀ i, ∃ a, s.tasks i = TState.done a := by
    intro i
    have hd := hdone i
    cases ht : s.tasks i <;>
      first
      | exact ⟨_, rfl⟩
      | (rw [ht] at hd; simp [isDone] at hd)
  have hc1 : s.created = 1 := by
    rcases Nat.lt_or_ge s.created 1 with hlt | hge
    · have h0 : s.created = 0 := by omega
      obtain ⟨a, ha⟩ := hall ⟨0, hn⟩
      have hp := hinv.pre_tasks h0 ⟨0, hn⟩
      rw [ha] at hp
      simp [postCreation] at hp
    · have := hinv.created_le
      omega
  refine ⟨hc1, ?_⟩
  intro i
  obtain ⟨a, ha⟩ := hall i
  have ha0 := hinv.val0 hc1 i a (Or.inr (Or.inr ha))
  rw [ha, ha0]

/-- Witness for C1: a concrete complete execution with one task; the task
returns assistant id 0 and exactly one upstream creation happened. -/
theorem claim_C1_resolve_idempotent_witness :
    (runSched (List.replicate 7 (0 : Fin 1)) (initLocked 1)).created = 1 ∧
    ∀ i, (runSched (List.replicate 7 (0 : Fin 1)) (initLocked 1)).tasks i =
      TState.done 0 :=
  claim_C1_resolve_idempotent 1 (by decide)
    (runSched (List.replicate 7 (0 : Fin 1)) (initLocked 1))
    (runSched_reach _ _) (by decide)

/-- C3 counterexample: the claim says the thread resolver triggers the
lock-protected `get_or_create_assistant` path, so the at-most-one-assistant
guarantee applies when resolving threads.  In the code,
`_get_or_create_user_assistant` calls `create_assistant_for_user` directly.
Under the schedule that interleaves two concurrent resolver calls for an
unprovisioned user, both read the empty mapping, two upstream creations are
made, the two calls return different assistant ids, and the per-user lock is
never taken — refuting the at-most-one guarantee on this path. -/
theorem claim_C3_counterexample :
    (runSched ([0, 1, 0, 1, 0, 1, 0, 1] : List (Fin 2)) (initResolvers 2)).created = 2 ∧
    (runSched ([0, 1, 0, 1, 0, 1, 0, 1] : List (Fin 2)) (initResolvers 2)).tasks 0 =
      TState.rDone 0 ∧
    (runSched ([0, 1, 0, 1, 0, 1, 0, 1] : List (Fin 2)) (initResolvers 2)).tasks 1 =
      TState.rDone 1 ∧
    (runSched ([0, 1, 0, 1, 0, 1, 0, 1] : List (Fin 2)) (initResolvers 2)).lock = none := by
  decide

/-- C3 (amended): when the thread resolver is asked to resolve a thread for a
user, it obtains an assistant id first — from the stored mapping, or else by
triggering provisioning through `create_assistant_for_user` (which re-checks
the mapping but is not lock-protected) — and only then creates the thread,
scoped to that assistant id; in the upstream call trace the provisioning call
precedes the thread creation.  The at-most-one-assistant guarantee of the
locked path does not apply here (see the counterexample). -/
theorem claim_C3_thread_scoped_amended (env : ThreadEnv) (uid tid : String)
    (n : Nat) (tr : List UpCall)
    (hok : createThreadAsync env uid = (.ok tid, n, tr)) :
    ∃ aid, env.threadCreate aid = .ok tid ∧
      ((getOrCreateUserAssistant env uid = (.ok aid, 0, []) ∧
          tr = [.createThread aid tid]) ∨
        ((createAssistantForUser env.prov uid none).result = .ok aid ∧
          tr = [.createAssistant aid, .createThread aid tid])) := by
  unfold createThreadAsync at hok
  rcases hg : getOrCreateUserAssistant env uid with ⟨r, n0, tr0⟩
  rw [hg] at hok
  cases r with
  | error e => simp at hok
  | ok aid =>
    dsimp only at hok
    cases htc : env.threadCreate aid with
    | error e => rw [htc] at hok; simp at hok
    | ok tid2 =>
      rw [htc] at hok
      dsimp only at hok
      simp only [Prod.mk.injEq] at hok
      obtain ⟨hok1, hok2, hok3⟩ := hok
      injection hok1 with hok1
      subst hok1
      subst hok2
      subst hok3
      refine ⟨aid, htc, ?_⟩
      unfold getOrCreateUserAssistant at hg
      cases hsel : supabaseSelect env.uaTable env.uaReadFault uid with
      | ok rows =>
        cases rows with
        | nil =>
          rw [hsel] at hg
          dsimp only at hg
          cases hp : (createAssistantForUser env.prov uid none).result with
          | error e2 => rw [hp] at hg; simp at hg
          | ok aid2 =>
            rw [hp] at hg
            dsimp only at hg
            simp only [Prod.mk.injEq] at hg
            obtain ⟨hg1, hg2, hg3⟩ := hg
            injection hg1 with hg1
            subst hg1
            subst hg3
            exact Or.inr ⟨rfl, rfl⟩
        | cons r0 rest =>
          rw [hsel] at hg
          dsimp only at hg
          simp only [Prod.mk.injEq] at hg
          obtain ⟨hg1, hg2, hg3⟩ := hg
          injection hg1 with hg1
          subst hg1
          subst hg2
          subst hg3
          exact Or.inl ⟨rfl, rfl⟩
      | error e1 =>
        rw [hsel] at hg
        dsimp only at hg
        cases hp : (createAssistantForUser env.prov uid none).result with
        | error e2 => rw [hp] at hg; simp at hg
        | ok aid2 =>
          rw [hp] at hg
          dsimp only at hg
          simp only [Prod.mk.injEq] at hg
          obtain ⟨hg1, hg2, hg3⟩ := hg
          injection hg1 with hg1
          subst hg1
          subst hg3
          exact Or.inr ⟨rfl, rfl⟩

/-- A provisioning environment for a fresh user `u1` with no scripted faults:
empty mapping table, upstream creation returns `asst_1`, no shared documents
on disk, every poll reports an empty document list. -/
def provEnvFresh : ProvEnv :=
  { table := [], readFault := false, createResult := .ok "asst_1",
    docs := [], polls := fun _ => .ok [], storeFault := false }

/-- A thread-store environment for `u1`: no thread mapping, no assistant
mapping (so resolution must auto-provision through `provEnvFresh`), thread
creation succeeds with `th_1`, and no concurrent writer raced the insert. -/
def threadEnvFresh : ThreadEnv :=
  { userThreads := [], getThreadFault := false,
    uaTable := [], uaReadFault := false,
    prov := provEnvFresh,
    threadCreate := fun _ => .ok "th_1",
    writeTable := [] }

/-- Witness for the amended C3: resolving a thread for the unprovisioned user
`u1` provisions `asst_1` first and then creates thread `th_1` scoped to it. -/
theorem claim_C3_thread_scoped_amended_witness :
    ∃ aid, threadEnvFresh.threadCreate aid = .ok "th_1" ∧
      ((getOrCreateUserAssistant threadEnvFresh "u1" = (.ok aid, 0, []) ∧
          ([UpCall.createAssistant "asst_1", UpCall.createThread "asst_1" "th_1"] :
            List UpCall) = [.createThread aid "th_1"]) ∨
        ((createAssistantForUser threadEnvFresh.prov "u1" none).result = .ok aid ∧
          ([UpCall.createAssistant "asst_1", UpCall.createThread "asst_1" "th_1"] :
            List UpCall) = [.createAssistant aid, .createThread aid "th_1"])) :=
  claim_C3_thread_scoped_amended threadEnvFresh "u1" "th_1" 1
    [.createAssistant "asst_1", .createThread "asst_1" "th_1"] (by decide)

/-- The C2 race: `get_thread` saw no `user_threads` row for `u1`, the user
already has assistant `asst_1`, thread creation succeeds, but by the time the
mapping is written a concurrent process has inserted a row for `u1`. -/
def c2RaceEnv : ThreadEnv :=
  { userThreads := [], getThreadFault := false,
    uaTable := [("u1", "asst_1")], uaReadFault := false,
    prov := { table := [("u1", "asst_1")], readFault := false,
              createResult := .ok "asst_new", docs := [],
              polls := fun _ => .ok [], storeFault := false },
    threadCreate := fun _ => .ok "th_new",
    writeTable := [("u1", "th_other")] }

/-- C2: the claim says every mapping write of the provisioner and the thread
resolver — including the write `get_or_create_thread_async` performs when no
thread mapping exists — uses merge-on-conflict upsert semantics.  The code
does use upserts in `_store_user_assistant`, `switch_thread` and
`create_new_thread` (second, third and fourth conjuncts: they succeed over an
existing row, overwriting it), but the `user_threads` write in
`get_or_create_thread_async` is a plain POST without
`resolution=merge-duplicates`: on the cross-process race the spec itself
describes, the insert hits the existing row and the whole resolution raises
(first conjunct), while the same call succeeds when no row appeared (fifth
conjunct).  The claim matches the spec's stated intent and the sibling
writes, so this is recorded as a bug in the code. -/
theorem claim_C2_blind_insert_bug :
    (getOrCreateThreadAsync c2RaceEnv "u1").result = .error .httpError ∧
    storeUserAssistant [("u1", "asst_old")] false "u1" "asst_1" =
      .ok [("u1", "asst_1")] ∧
    switchThread [("u1", "th_other")] false "u1" "th_new" =
      .ok ("th_new", [("u1", "th_new")]) ∧
    (createNewThread c2RaceEnv "u1").result = .ok "th_new" ∧
    (getOrCreateThreadAsync { c2RaceEnv with writeTable := [] } "u1").result =
      .ok "th_new" := by
  decide

/-- Auxiliary: `find?` returns the head of `filter`. -/
theorem find?_eq_head_filter {α : Type} (p : α → Bool) (l : List α) :
    l.find? p = (l.filter p).head? := by
  induction l with
  | nil => rfl
  | cons a t ih =>
    cases hp : p a
    · rw [List.find?_cons_of_neg t (by rw [hp]; exact Bool.false_ne_true),
        List.filter_cons_of_neg (by rw [hp]; exact Bool.false_ne_true)]
      exact ih
    · rw [List.find?_cons_of_pos t hp, List.filter_cons_of_pos hp]
      rfl

/-- Auxiliary: `countRows` as an occurrence count. -/
theorem countRows_eq_countP (t : List Row) (w : String) :
    countRows t w = t.countP (fun r => r.1 == w) := by
  rw [countRows, List.countP_eq_length_filter]

/-- Auxiliary: overwriting the rows of `u` in place keeps the number of rows
of `u` unchanged. -/
theorem countRows_map_self (t : List Row) (u v : String) :
    countRows (t.map (fun r => if r.1 == u then (u, v) else r)) u =
      countRows t u := by
  rw [countRows_eq_countP, countRows_eq_countP, List.countP_map]
  refine List.countP_congr ?_
  intro r _
  cases hr : r.1 == u <;> simp [Function.comp, hr]

/-- Auxiliary: overwriting the rows of `u` does not change the rows of
another key. -/
theorem countRows_map_ne (t : List Row) (u v w : String) (hw : w ≠ u) :
    countRows (t.map (fun r => if r.1 == u then (u, v) else r)) w =
      countRows t w := by
  rw [countRows_eq_countP, countRows_eq_countP, List.countP_map]
  refine List.countP_congr ?_
  intro r _
  have hb : (u == w) = false := beq_eq_false_iff_ne.mpr (Ne.symm hw)
  cases hr : r.1 == u
  · simp [Function.comp, hr]
  · have hru : r.1 = u := beq_iff_eq.mp hr
    simp [Function.comp, hr, hb, hru]

/-- Auxiliary: `countRows` over an append. -/
theorem countRows_append (t1 t2 : List Row) (w : String) :
    countRows (t1 ++ t2) w = countRows t1 w + countRows t2 w := by
  rw [countRows_eq_countP, countRows_eq_countP, countRows_eq_countP,
    List.countP_append]

/-- Auxiliary: a key absent from the table counts zero rows. -/
theorem countRows_eq_zero_of_not_any (t : List Row) (u : String)
    (h : t.any (fun r => r.1 == u) = false) : countRows t u = 0 := by
  rw [countRows_eq_countP]
  rw [List.countP_eq_zero]
  intro r hr hcon
  have hany : t.any (fun r => r.1 == u) = true := List.any_eq_true.mpr ⟨r, hr, hcon⟩
  rw [h] at hany
  cases hany

/-- Auxiliary: a key present in the table counts at least one row. -/
theorem countRows_pos_of_any (t : List Row) (u : String)
    (h : t.any (fun r => r.1 == u) = true) : 0 < countRows t u := by
  rw [countRows_eq_countP]
  rw [List.countP_pos_iff]
  exact List.any_eq_true.mp h

/-- After an upsert for `u`, `u` holds exactly one row (in a well-formed
table) and the other keys are untouched. -/
theorem countRows_upsert (t : List Row) (u v : String)
    (hwf : ∀ w, countRows t w ≤ 1) :
    countRows (upsertRow t u v) u = 1 ∧
      ∀ w, w ≠ u → countRows (upsertRow t u v) w = countRows t w := by
  unfold upsertRow
  cases ha : t.any (fun r => r.1 == u) with
  | true =>
    rw [if_pos rfl]
    constructor
    · rw [countRows_map_self]
      have h1 := countRows_pos_of_any t u ha
      have h2 := hwf u
      omega
    · intro w hw
      rw [countRows_map_ne t u v w hw]
  | false =>
    rw [if_neg Bool.false_ne_true]
    constructor
    · have h1 : countRows [(u, v)] u = 1 := by
        rw [countRows_eq_countP]
        simp [List.countP_cons]
      rw [countRows_append, countRows_eq_zero_of_not_any t u ha, h1]
    · intro w hw
      have hb : (u == w) = false := beq_eq_false_iff_ne.mpr (Ne.symm hw)
      have h0 : countRows [(u, v)] w = 0 := by
        rw [countRows_eq_countP]
        simp [List.countP_cons, hb]
      rw [countRows_append, h0]
      omega

/-- Auxiliary: looking up `u` after the in-place overwrite of its rows. -/
theorem lookup_map_overwrite (t : List Row) (u v : String)
    (ha : t.any (fun r => r.1 == u) = true) :
    lookupRow (t.map (fun r => if r.1 == u then (u, v) else r)) u = some v := by
  induction t with
  | nil => cases ha
  | cons r rest ih =>
    rw [List.any_cons, Bool.or_eq_true] at ha
    unfold lookupRow
    simp only [List.map_cons]
    by_cases hr : r.1 = u
    · have hrb : (r.1 == u) = true := beq_iff_eq.mpr hr
      rw [if_pos hrb]
      simp [List.find?_cons]
    · have hrb : (r.1 == u) = false := beq_eq_false_iff_ne.mpr hr
      rw [if_neg (by rw [hrb]; exact Bool.false_ne_true)]
      rcases ha with h | h
      · rw [hrb] at h; cases h
      · have hrest := ih h
        unfold lookupRow at hrest
        simpa [List.find?_cons, hrb] using hrest

/-- After an upsert for `u`, looking up `u` returns the new value. -/
theorem lookupRow_upsert_self (t : List Row) (u v : String) :
    lookupRow (upsertRow t u v) u = some v := by
  unfold upsertRow
  cases ha : t.any (fun r => r.1 == u) with
  | true =>
    rw [if_pos rfl]
    exact lookup_map_overwrite t u v ha
  | false =>
    rw [if_neg Bool.false_ne_true]
    unfold lookupRow
    rw [find?_eq_head_filter, List.filter_append]
    have hnil : t.filter (fun r => r.1 == u) = [] := by
      rw [List.filter_eq_nil_iff]
      intro r hr hcon
      have hany : t.any (fun r => r.1 == u) = true :=
        List.any_eq_true.mpr ⟨r, hr, hcon⟩
      rw [ha] at hany
      cases hany
    rw [hnil]
    simp [List.filter_cons]

/-- A thread-store environment that reads the `user_threads` rows `t` with no
fault, used to express `current(u)` through the source's `get_thread`. -/
def threadReadEnv (t : List Row) : ThreadEnv :=
  { threadEnvFresh with userThreads := t }

/-- Auxiliary: `get_thread` returns the first stored row's thread. -/
theorem getThread_eq_lookup (t : List Row) (u : String) :
    getThread (threadReadEnv t) u = .ok (lookupRow t u) := by
  unfold getThread
  unfold lookupRow
  rw [find?_eq_head_filter]
  have hsel : supabaseSelect (threadReadEnv t).userThreads
      (threadReadEnv t).getThreadFault u = .ok (t.filter (fun r => r.1 == u)) := rfl
  rw [hsel]
  cases t.filter (fun r => r.1 == u) with
  | nil => rfl
  | cons r rest => rfl

/-- C8: after `switch_thread(u, T1)` then `switch_thread(u, T2)`, reading the
current thread through `get_thread` returns `T2`; each switch overwrites the
single `user_threads` row of `u` via upsert — after each write `u` holds
exactly one row, every user still holds at most one row, and no other user's
rows are touched — so switches never append a second thread pointer. -/
theorem claim_C8_switch_overwrites (table : List Row) (u T1 T2 : String)
    (hwf : ∀ w, countRows table w ≤ 1) :
    ∃ t1 t2,
      switchThread table false u T1 = .ok (T1, t1) ∧
      switchThread t1 false u T2 = .ok (T2, t2) ∧
      getThread (threadReadEnv t2) u = .ok (some T2) ∧
      countRows t1 u = 1 ∧ countRows t2 u = 1 ∧
      (∀ w, countRows t2 w ≤ 1) ∧
      (∀ w, w ≠ u → countRows t2 w = countRows table w) := by
  have h1 := countRows_upsert table u T1 hwf
  have hwf1 : ∀ w, countRows (upsertRow table u T1) w ≤ 1 := by
    intro w
    by_cases hw : w = u
    · rw [hw, h1.1]
    · rw [h1.2 w hw]
      exact hwf w
  have h2 := countRows_upsert (upsertRow table u T1) u T2 hwf1
  refine ⟨upsertRow table u T1, upsertRow (upsertRow table u T1) u T2,
    rfl, rfl, ?_, h1.1, h2.1, ?_, ?_⟩
  · rw [getThread_eq_lookup, lookupRow_upsert_self]
  · intro w
    by_cases hw : w = u
    · rw [hw, h2.1]
    · rw [h2.2 w hw]
      exact hwf1 w
  · intro w hw
    rw [h2.2 w hw, h1.2 w hw]

/-- Witness for C8: two switches for user `u1` starting from an empty
`user_threads` table. -/
theorem claim_C8_switch_overwrites_witness :
    ∃ t1 t2,
      switchThread [] false "u1" "th_A" = .ok ("th_A", t1) ∧
      switchThread t1 false "u1" "th_B" = .ok ("th_B", t2) ∧
      getThread (threadReadEnv t2) "u1" = .ok (some "th_B") ∧
      countRows t1 "u1" = 1 ∧ countRows t2 "u1" = 1 ∧
      (∀ w, countRows t2 w ≤ 1) ∧
      (∀ w, w ≠ "u1" → countRows t2 w = countRows [] w) :=
  claim_C8_switch_overwrites [] "u1" "th_A" "th_B"
    (fun w => by rw [countRows_eq_countP]; simp)

/-- Auxiliary: with no progress callback the upload loop emits nothing and
never aborts. -/
theorem uploadDocsGo_none (total : Nat) (docs : List DocSpec) :
    ∀ i, (uploadDocsGo none total i docs).sinkRaised = false ∧
      (uploadDocsGo none total i docs).events = [] := by
  induction docs with
  | nil => intro i; exact ⟨rfl, rfl⟩
  | cons d rest ih =>
    intro i
    cases hd : d.onDisk
    · simpa [uploadDocsGo, hd] using ih (i + 1)
    · simpa [uploadDocsGo, hd, emitOk, withEvent] using ih (i + 1)

/-- Auxiliary: with no progress callback the verification loop emits
nothing. -/
theorem verifyGo_none_events (polls : Nat → PollResult) :
    ∀ fuel a, (verifyGo none polls a fuel).events = [] := by
  intro fuel
  induction fuel with
  | zero => intro a; rfl
  | succ f ih =>
    intro a
    unfold verifyGo
    cases hp : polls a with
    | error e => simpa using ih (a + 1)
    | ok statuses =>
      by_cases hc : 0 < statuses.length ∧ countIndexed statuses = statuses.length
      · simp [emitOk, withEvent, if_pos hc]
      · simp [emitOk, withEvent, if_neg hc]
        exact ih (a + 1)

/-- Auxiliary: a closed form of `create_assistant_for_user` for a run whose
existing-assistant check misses, whose upstream creation succeeds, whose
mapping write succeeds, and whose unguarded progress emissions all return
normally. -/
theorem createAssistantForUser_ok (env : ProvEnv) (uid aid : String)
    (sink : Sink)
    (hmiss : getUserAssistant env.table env.readFault uid = none)
    (hcreate : env.createResult = .ok aid)
    (hstore : env.storeFault = false)
    (hcreating : emitOk sink creatingEvent = true)
    (hup : (uploadSharedDocuments sink env.docs).sinkRaised = false)
    (hverinit : emitOk sink verifyInitEvent = true) :
    (createAssistantForUser env uid sink).result = .ok aid ∧
    (createAssistantForUser env uid sink).table = upsertRow env.table uid aid ∧
    (createAssistantForUser env uid sink).createCalls = 1 ∧
    (createAssistantForUser env uid sink).uploaded =
      (uploadSharedDocuments sink env.docs).uploaded ∧
    (createAssistantForUser env uid sink).events =
      withEvent sink creatingEvent
        ((uploadSharedDocuments sink env.docs).events ++
          withEvent sink verifyInitEvent (verifyGo sink env.polls 0 18).events) := by
  have hform : createAssistantForUser env uid sink =
      ⟨.ok aid,
        withEvent sink creatingEvent
          ((uploadSharedDocuments sink env.docs).events ++
            withEvent sink verifyInitEvent (verifyGo sink env.polls 0 18).events),
        upsertRow env.table uid aid, 1,
        (uploadSharedDocuments sink env.docs).uploaded,
        some (verifyGo sink env.polls 0 18).converged⟩ := by
    simp only [createAssistantForUser, verifyDocumentsIndexed, hmiss, hcreating,
      hcreate, hup, hverinit, hstore, Bool.not_true, Bool.false_eq_true, if_false,
      ite_false, ite_true]
  rw [hform]
  exact ⟨rfl, rfl, rfl, rfl, rfl⟩

/-- C9: any exception during the `user_assistants` lookup makes
`get_user_assistant` return `None` (first conjunct); consequently, when
every read of the mapping store fails, the fast path, the under-lock
re-check and the pre-creation check of `get_or_create_assistant` all treat
the failure exactly like a missing mapping, and a new assistant resource is
created — one upstream creation is made and its id returned, even if the
store actually holds a mapping for the user. -/
theorem claim_C9_read_failure_is_miss (env : ProvEnv) (uid aid : String)
    (hread : env.readFault = true) (hcreate : env.createResult = .ok aid)
    (hstore : env.storeFault = false) :
    (∀ (table : List Row) (u : String), getUserAssistant table true u = none) ∧
    (getOrCreateAssistant true true env uid none).result = .ok aid ∧
    (getOrCreateAssistant true true env uid none).createCalls = 1 := by
  have hmiss : getUserAssistant env.table env.readFault uid = none := by
    rw [hread]
    rfl
  have hok := createAssistantForUser_ok env uid aid none hmiss hcreate hstore rfl
    ((uploadDocsGo_none env.docs.length env.docs 1).1) rfl
  have hgoc : getOrCreateAssistant true true env uid none =
      createAssistantForUser env uid none := rfl
  exact ⟨fun table u => rfl, by rw [hgoc]; exact hok.1, by rw [hgoc]; exact hok.2.2.1⟩

/-- The environment of the C9 witness: every store read faults while the
store actually holds a mapping `(u1, asst_old)`; creation returns `asst_2`. -/
def c9Env : ProvEnv :=
  { table := [("u1", "asst_old")], readFault := true,
    createResult := .ok "asst_2", docs := [],
    polls := fun _ => .ok [], storeFault := false }

/-- Witness for C9: with all reads failing over a store that already maps
`u1`, resolution still creates and returns a fresh assistant. -/
theorem claim_C9_read_failure_is_miss_witness :
    (∀ (table : List Row) (u : String), getUserAssistant table true u = none) ∧
    (getOrCreateAssistant true true c9Env "u1" none).result = .ok "asst_2" ∧
    (getOrCreateAssistant true true c9Env "u1" none).createCalls = 1 :=
  claim_C9_read_failure_is_miss c9Env "u1" "asst_2" rfl rfl rfl

/-- The code's convergence test for one poll: the attempt returned a
positive number of documents, all of them with status indexed. -/
def pollConverged (pr : PollResult) : Prop :=
  match pr with
  | .error _ => False
  | .ok statuses => 0 < statuses.length ∧ countIndexed statuses = statuses.length

instance (pr : PollResult) : Decidable (pollConverged pr) := by
  unfold pollConverged
  cases pr with
  | error e => exact inferInstance
  | ok statuses => exact inferInstance

/-- Auxiliary: with no callback, if no attempt in the window converges the
loop runs the whole window, sleeping 5 seconds after every attempt. -/
theorem verifyGo_none_not_conv (polls : Nat → PollResult) :
    ∀ fuel a, (∀ j, a ≤ j → j < a + fuel → ¬ pollConverged (polls j)) →
      verifyGo none polls a fuel = ⟨[], false, fuel, 5 * fuel⟩ := by
  intro fuel
  induction fuel with
  | zero => intro a h; rfl
  | succ f ih =>
    intro a h
    have hrec := ih (a + 1) (fun j h1 h2 => h j (by omega) (by omega))
    unfold verifyGo
    cases hp : polls a with
    | error e =>
      simp only [hrec, VerifyOutcome.mk.injEq, true_and, and_true] <;> omega
    | ok statuses =>
      have hna : ¬ pollConverged (polls a) := h a le_rfl (by omega)
      have hcnd : ¬ (0 < statuses.length ∧ countIndexed statuses = statuses.length) := by
        intro hc
        exact hna (by rw [hp]; exact hc)
      simp [emitOk, hcnd, hrec, withEvent, VerifyOutcome.mk.injEq] <;> omega

/-- Auxiliary: with no callback, if attempt `a + k` is the first in the
window to converge, the loop stops right after it: `k + 1` attempts were
made with a 5-second sleep after each of the first `k`. -/
theorem verifyGo_none_conv (polls : Nat → PollResult) :
    ∀ fuel a k, k < fuel → pollConverged (polls (a + k)) →
      (∀ j, a ≤ j → j < a + k → ¬ pollConverged (polls j)) →
      verifyGo none polls a fuel = ⟨[], true, k + 1, 5 * k⟩ := by
  intro fuel
  induction fuel with
  | zero => intro a k hk; omega
  | succ f ih =>
    intro a k hk hconv hbefore
    unfold verifyGo
    cases k with
    | zero =>
      rw [Nat.add_zero] at hconv
      cases hp : polls a with
      | error e =>
        rw [hp] at hconv
        exact absurd hconv (by unfold pollConverged; exact fun x => x)
      | ok statuses =>
        rw [hp] at hconv
        have hc : 0 < statuses.length ∧ countIndexed statuses = statuses.length := hconv
        simp [emitOk, hc.1, hc.2, withEvent, VerifyOutcome.mk.injEq]
    | succ k2 =>
      have hconv2 : pollConverged (polls (a + 1 + k2)) := by
        have he : a + 1 + k2 = a + (k2 + 1) := by omega
        rw [he]
        exact hconv
      have hbefore2 : ∀ j, a + 1 ≤ j → j < a + 1 + k2 → ¬ pollConverged (polls j) :=
        fun j h1 h2 => hbefore j (by omega) (by omega)
      have hrec := ih (a + 1) k2 (by omega) hconv2 hbefore2
      have hna : ¬ pollConverged (polls a) := hbefore a le_rfl (by omega)
      cases hp : polls a with
      | error e =>
        simp only [hrec, VerifyOutcome.mk.injEq, true_and, and_true] <;> omega
      | ok statuses =>
        have hcnd : ¬ (0 < statuses.length ∧ countIndexed statuses = statuses.length) := by
          intro hc
          exact hna (by rw [hp]; exact hc)
        simp [emitOk, hcnd, hrec, withEvent, VerifyOutcome.mk.injEq] <;> omega

/-- Auxiliary: under any callback, the loop only ever reports convergence
because some attempt in its window returned a non-empty, fully indexed
document list. -/
theorem verifyGo_converged_exists (sink : Sink) (polls : Nat → PollResult) :
    ∀ fuel a, (verifyGo sink polls a fuel).converged = true →
      ∃ j s, a ≤ j ∧ j < a + fuel ∧ polls j = .ok s ∧ 0 < s.length ∧
        countIndexed s = s.length := by
  intro fuel
  induction fuel with
  | zero => intro a h; cases h
  | succ f ih =>
    intro a h
    unfold verifyGo at h
    cases hp : polls a with
    | error e =>
      rw [hp] at h
      dsimp only at h
      obtain ⟨j, s, h1, h2, h3⟩ := ih (a + 1) h
      exact ⟨j, s, by omega, by omega, h3⟩
    | ok statuses =>
      rw [hp] at h
      dsimp only at h
      by_cases hcnd : 0 < statuses.length ∧ countIndexed statuses = statuses.length
      · exact ⟨a, statuses, le_rfl, by omega, hp, hcnd.1, hcnd.2⟩
      · rw [if_neg hcnd] at h
        cases hemit : emitOk sink ⟨"verifying",
            verifyMsg (countIndexed statuses) statuses.length,
            countIndexed statuses, statuses.length⟩
        · rw [hemit] at h
          simp only [Bool.false_eq_true, if_false] at h
          obtain ⟨j, s, h1, h2, h3⟩ := ih (a + 1) h
          exact ⟨j, s, by omega, by omega, h3⟩
        · rw [hemit] at h
          simp only [if_true] at h
          obtain ⟨j, s, h1, h2, h3⟩ := ih (a + 1) h
          exact ⟨j, s, by omega, by omega, h3⟩

/-- C10: the indexing-verification loop reports convergence only when a poll
returned a non-empty document list with every entry indexed (first
conjunct, for any callback, any polls, any window); for an assistant whose
document list is empty on every poll the loop never converges early — it
runs all 18 attempts, sleeping the fixed 5 seconds after each (90 seconds
total), and returns a non-converged result (second conjunct). -/
theorem claim_C10_empty_never_converges (polls : Nat → PollResult)
    (hempty : ∀ j, polls j = .ok []) :
    (∀ (sink2 : Sink) (polls2 : Nat → PollResult) (fuel a : Nat),
        (verifyGo sink2 polls2 a fuel).converged = true →
        ∃ j s, a ≤ j ∧ j < a + fuel ∧ polls2 j = .ok s ∧ 0 < s.length ∧
          countIndexed s = s.length) ∧
    verifyGo none polls 0 18 = ⟨[], false, 18, 90⟩ := by
  constructor
  · exact fun sink2 polls2 fuel a => verifyGo_converged_exists sink2 polls2 fuel a
  · have h18 : verifyGo none polls 0 18 = ⟨[], false, 18, 5 * 18⟩ := by
      refine verifyGo_none_not_conv polls 18 0 ?_
      intro j h1 h2 hc
      rw [hempty j] at hc
      exact absurd hc.1 (by simp)
    rw [h18]

/-- Witness for C10: the constant empty-list polls. -/
theorem claim_C10_empty_never_converges_witness :
    (∀ (sink2 : Sink) (polls2 : Nat → PollResult) (fuel a : Nat),
        (verifyGo sink2 polls2 a fuel).converged = true →
        ∃ j s, a ≤ j ∧ j < a + fuel ∧ polls2 j = .ok s ∧ 0 < s.length ∧
          countIndexed s = s.length) ∧
    verifyGo none (fun _ => .ok []) 0 18 = ⟨[], false, 18, 90⟩ :=
  claim_C10_empty_never_converges (fun _ => .ok []) (fun _ => rfl)

/-- C6: the verification loop polls on a fixed 5-second interval and stops
as soon as a poll reports a (non-empty) fully indexed document list — if
attempt `k` is the first to converge it makes `k + 1` attempts with `5k`
seconds of sleep (first conjunct) — and otherwise exhausts exactly 18
attempts and 90 seconds of sleep (second conjunct); in either case, and
whatever the polls returned, the provisioning run still completes: the
user→assistant mapping is stored and the same assistant id is returned
(third and fourth conjuncts). -/
theorem claim_C6_verify_bounded_nonfatal (env : ProvEnv) (uid aid : String)
    (k : Nat)
    (hmiss : getUserAssistant env.table env.readFault uid = none)
    (hcreate : env.createResult = .ok aid)
    (hstore : env.storeFault = false) :
    ((k < 18 ∧ pollConverged (env.polls k) ∧ ∀ j, j < k → ¬ pollConverged (env.polls j)) →
      verifyGo none env.polls 0 18 = ⟨[], true, k + 1, 5 * k⟩) ∧
    ((∀ j, j < 18 → ¬ pollConverged (env.polls j)) →
      verifyGo none env.polls 0 18 = ⟨[], false, 18, 90⟩) ∧
    (createAssistantForUser env uid none).result = .ok aid ∧
    lookupRow (createAssistantForUser env uid none).table uid = some aid := by
  have hok := createAssistantForUser_ok env uid aid none hmiss hcreate hstore rfl
    ((uploadDocsGo_none env.docs.length env.docs 1).1) rfl
  refine ⟨?_, ?_, hok.1, ?_⟩
  · rintro ⟨hk, hconv, hbefore⟩
    exact verifyGo_none_conv env.polls 18 0 k hk (by simpa using hconv)
      (fun j h1 h2 => hbefore j (by omega))
  · intro hall
    have h18 := verifyGo_none_not_conv env.polls 18 0
      (fun j h1 h2 => hall j (by omega))
    rw [h18]
  · rw [hok.2.1]
    exact lookupRow_upsert_self env.table uid aid

/-- The environment of the C6 witness: two documents, polls report both
pending on attempt 0, both indexed from attempt 1 on. -/
def c6Env : ProvEnv :=
  { table := [], readFault := false, createResult := .ok "asst_1",
    docs := [⟨"a.md", true, true⟩, ⟨"b.md", true, true⟩],
    polls := fun j => if j = 0 then .ok ["pending", "pending"]
      else .ok ["indexed", "indexed"],
    storeFault := false }

/-- Witness for C6: with `c6Env` the first converging attempt is attempt 1,
so the loop stops after 2 attempts and 5 seconds of sleep, and provisioning
completes with the mapping stored. -/
theorem claim_C6_verify_bounded_nonfatal_witness :
    ((1 < 18 ∧ pollConverged (c6Env.polls 1) ∧
        ∀ j, j < 1 → ¬ pollConverged (c6Env.polls j)) →
      verifyGo none c6Env.polls 0 18 = ⟨[], true, 1 + 1, 5 * 1⟩) ∧
    ((∀ j, j < 18 → ¬ pollConverged (c6Env.polls j)) →
      verifyGo none c6Env.polls 0 18 = ⟨[], false, 18, 90⟩) ∧
    (createAssistantForUser c6Env "u1" none).result = .ok "asst_1" ∧
    lookupRow (createAssistantForUser c6Env "u1" none).table "u1" =
      some "asst_1" :=
  claim_C6_verify_bounded_nonfatal c6Env "u1" "asst_1" 1 rfl rfl rfl

/-- Auxiliary: with no callback, the documents uploaded by the loop are
exactly the ones that exist on disk and whose upload succeeds, in order. -/
theorem uploadDocsGo_none_uploaded (total : Nat) (docs : List DocSpec) :
    ∀ i, (uploadDocsGo none total i docs).uploaded =
      (docs.filter (fun d => d.onDisk && d.uploadOk)).map (fun d => d.name) := by
  induction docs with
  | nil => intro i; rfl
  | cons d rest ih =>
    intro i
    cases hd : d.onDisk
    · have hf : (d.onDisk && d.uploadOk) = false := by rw [hd]; rfl
      simp [uploadDocsGo, hd, List.filter_cons, hf, ih (i + 1)]
    · cases hu : d.uploadOk
      · have hf : (d.onDisk && d.uploadOk) = false := by rw [hd, hu]; rfl
        simp [uploadDocsGo, hd, hu, emitOk, List.filter_cons, hf, ih (i + 1)]
      · have hf : (d.onDisk && d.uploadOk) = true := by rw [hd, hu]; rfl
        simp [uploadDocsGo, hd, hu, emitOk, List.filter_cons, hf, ih (i + 1)]

/-- C7: a shared document X whose local file is missing or whose upload
fails is logged and skipped — provisioning still completes and returns the
assistant id (first conjunct); X is excluded from the assistant's document
set, so a later listing of the assistant's documents excludes X from the
indexed set (second conjunct); and every other document that exists on disk
and uploads successfully is still uploaded (third conjunct). -/
theorem claim_C7_upload_soft_failure (env : ProvEnv) (uid aid : String)
    (X : DocSpec)
    (hmiss : getUserAssistant env.table env.readFault uid = none)
    (hcreate : env.createResult = .ok aid)
    (hstore : env.storeFault = false)
    (hX : X ∈ env.docs)
    (hXfail : X.onDisk = false ∨ X.uploadOk = false)
    (hXuniq : ∀ d ∈ env.docs, d.name = X.name →
      d.onDisk = false ∨ d.uploadOk = false) :
    (createAssistantForUser env uid none).result = .ok aid ∧
    X.name ∉ (createAssistantForUser env uid none).uploaded ∧
    ∀ d ∈ env.docs, d.onDisk = true → d.uploadOk = true →
      d.name ∈ (createAssistantForUser env uid none).uploaded := by
  have hok := createAssistantForUser_ok env uid aid none hmiss hcreate hstore rfl
    ((uploadDocsGo_none env.docs.length env.docs 1).1) rfl
  have hup : (createAssistantForUser env uid none).uploaded =
      (env.docs.filter (fun d => d.onDisk && d.uploadOk)).map (fun d => d.name) := by
    rw [hok.2.2.2.1]
    exact uploadDocsGo_none_uploaded env.docs.length env.docs 1
  refine ⟨hok.1, ?_, ?_⟩
  · rw [hup]
    intro hmem
    obtain ⟨d, hd, hdn⟩ := List.mem_map.mp hmem
    obtain ⟨hdmem, hdp⟩ := List.mem_filter.mp hd
    rcases hXuniq d hdmem hdn with hcase | hcase
    · rw [hcase] at hdp
      simp at hdp
    · rw [hcase] at hdp
      simp at hdp
  · intro d hdmem hdd hdu
    rw [hup]
    exact List.mem_map.mpr ⟨d, List.mem_filter.mpr ⟨hdmem, by rw [hdd, hdu]; rfl⟩, rfl⟩

/-- The environment of the C7 witness: `missing.md` is not on disk,
`bad.md` fails to upload, `good.md` uploads fine. -/
def c7Env : ProvEnv :=
  { table := [], readFault := false, createResult := .ok "asst_1",
    docs := [⟨"good.md", true, true⟩, ⟨"missing.md", false, true⟩,
      ⟨"bad.md", true, false⟩],
    polls := fun _ => .ok ["indexed"], storeFault := false }

/-- Witness for C7 at the missing document of `c7Env`. -/
theorem claim_C7_upload_soft_failure_witness :
    (createAssistantForUser c7Env "u1" none).result = .ok "asst_1" ∧
    "missing.md" ∉ (createAssistantForUser c7Env "u1" none).uploaded ∧
    ∀ d ∈ c7Env.docs, d.onDisk = true → d.uploadOk = true →
      d.name ∈ (createAssistantForUser c7Env "u1" none).uploaded := by
  have h := claim_C7_upload_soft_failure c7Env "u1" "asst_1"
    ⟨"missing.md", false, true⟩ rfl rfl rfl (by decide) (by decide) (by decide)
  exact h

/-- The progress sink of the C4 counterexample: raises on the
`creating_assistant` emission and succeeds on everything else. -/
def c4FailSink : ProgressEvent → Bool := fun e => !(e.step == "creating_assistant")

/-- The environment of the C4 counterexample: a fresh user whose upstream
creation would succeed, with one document ready to upload. -/
def c4Env : ProvEnv :=
  { table := [], readFault := false, createResult := .ok "asst_1",
    docs := [⟨"good.md", true, true⟩], polls := fun _ => .ok ["indexed"],
    storeFault := false }

/-- C4 counterexample: the claim says an exception raised by a progress-sink
invocation does not abort provisioning.  In the code the
`creating_assistant` emission is awaited outside any try/except
(`user_assistant_service.py:114-115`), so a sink that raises there aborts
`create_assistant_for_user` before anything happens: the run ends with the
sink's exception, no upstream creation is made and no mapping is stored. -/
theorem claim_C4_counterexample :
    (createAssistantForUser c4Env "u1" (some c4FailSink)).result =
      .error .sinkError ∧
    (createAssistantForUser c4Env "u1" (some c4FailSink)).createCalls = 0 ∧
    (createAssistantForUser c4Env "u1" (some c4FailSink)).table = [] := by
  decide

/-- Auxiliary: a sink that returns normally on every upload emission never
aborts the upload loop. -/
theorem uploadDocsGo_sink_ok (f : ProgressEvent → Bool) (total : Nat)
    (docs : List DocSpec)
    (hf : ∀ j t, f ⟨"uploading_docs", uploadMsg j t, j, t⟩ = true) :
    ∀ i, (uploadDocsGo (some f) total i docs).sinkRaised = false := by
  induction docs with
  | nil => intro i; rfl
  | cons d rest ih =>
    intro i
    cases hd : d.onDisk
    · simpa [uploadDocsGo, hd] using ih (i + 1)
    · simp [uploadDocsGo, hd, emitOk, hf i total]
      exact ih (i + 1)

/-- C4 (amended): only the per-attempt emissions inside the verification
polling loop sit in a try/except — a progress sink raising there is caught
and provisioning completes and returns the assistant id; exceptions from the
`creating_assistant`, `uploading_docs` or initial `verifying` emissions
propagate and abort provisioning (see the counterexample). -/
theorem claim_C4_sink_tolerated_amended (env : ProvEnv) (uid aid : String)
    (f : ProgressEvent → Bool)
    (hmiss : getUserAssistant env.table env.readFault uid = none)
    (hcreate : env.createResult = .ok aid)
    (hstore : env.storeFault = false)
    (hf : ∀ e, f e = false → e.step = "verifying" ∧ e ≠ verifyInitEvent) :
    (createAssistantForUser env uid (some f)).result = .ok aid := by
  have hcreating : emitOk (some f) creatingEvent = true := by
    cases hc : f creatingEvent
    · have hstep := (hf _ hc).1
      exact absurd hstep (by decide)
    · exact hc
  have hupload : ∀ j t, f ⟨"uploading_docs", uploadMsg j t, j, t⟩ = true := by
    intro j t
    cases hc : f ⟨"uploading_docs", uploadMsg j t, j, t⟩
    · have hstep := (hf _ hc).1
      exact absurd (show ("uploading_docs" : String) = "verifying" from hstep)
        (by decide)
    · rfl
  have hverinit : emitOk (some f) verifyInitEvent = true := by
    cases hc : f verifyInitEvent
    · exact absurd rfl (hf _ hc).2
    · exact hc
  have hok := createAssistantForUser_ok env uid aid (some f) hmiss hcreate hstore
    hcreating (uploadDocsGo_sink_ok f env.docs.length env.docs hupload 1) hverinit
  exact hok.1

/-- The progress sink of the amended-C4 witness: raises exactly on the
per-attempt verifying emissions (step `verifying`, but not the initial
event), succeeds on everything else. -/
def c4AmendSink : ProgressEvent → Bool :=
  fun e => !(e.step == "verifying") || e == verifyInitEvent

/-- Witness for the amended C4: under `c4AmendSink` — which raises on every
per-attempt verifying emission — provisioning for `c4Env` still completes
and returns the assistant id. -/
theorem claim_C4_sink_tolerated_amended_witness :
    (createAssistantForUser c4Env "u1" (some c4AmendSink)).result =
      .ok "asst_1" := by
  refine claim_C4_sink_tolerated_amended c4Env "u1" "asst_1" c4AmendSink rfl rfl rfl ?_
  intro e he
  rw [c4AmendSink, Bool.or_eq_false_iff] at he
  constructor
  · cases hb : e.step == "verifying"
    · rw [hb] at he
      cases he.1
    · exact beq_iff_eq.mp hb
  · intro hee
    rw [hee] at he
    have h2 := he.2
    rw [beq_self_eq_true] at h2
    cases h2

/-- The step order stated by the spec for the provisioning progress
protocol. -/
def stepRank (s : String) : Nat :=
  if s = "creating_assistant" then 0
  else if s = "uploading_docs" then 1
  else if s = "verifying" then 2
  else if s = "creating_thread" then 3
  else if s = "complete" then 4
  else 5

/-- Formalisation of the claimed event ordering (this definition follows the
spec's words, to be checked against the traces the embedded code emits):
steps fire in the claimed order; the uploading counters strictly increase;
the verifying counters never decrease. -/
def progressOrdered (events : List ProgressEvent) : Prop :=
  List.Chain' (fun x y => stepRank x.step ≤ stepRank y.step) events ∧
  List.Chain' (fun x y => x < y)
    ((events.filter (fun e => e.step == "uploading_docs")).map
      (fun e => e.current)) ∧
  List.Chain' (fun x y => x ≤ y)
    ((events.filter (fun e => e.step == "verifying")).map
      (fun e => e.current))

/-- A progress sink that always returns normally. -/
def allOkSink : ProgressEvent → Bool := fun _ => true

/-- The environment of the C5 counterexample: the upstream indexer reports
1 of 2 documents indexed on attempt 0 and 0 of 2 on every later attempt, so
the emitted verifying counters go 0, 1, 0, 0, … -/
def c5CexEnv : ProvEnv :=
  { table := [], readFault := false, createResult := .ok "asst_1",
    docs := [⟨"good.md", true, true⟩],
    polls := fun j => if j = 0 then .ok ["indexed", "pending"]
      else .ok ["pending", "pending"],
    storeFault := false }

/-- C5 counterexample: the claim says the verifying events carry a
non-decreasing indexed count.  The code simply reports whatever the
upstream poll returns: under `c5CexEnv` the provisioning run with an
always-succeeding sink emits verifying counters 0, 1, 0, …, which decrease,
so the run's event trace violates the claimed ordering. -/
theorem claim_C5_counterexample :
    ¬ progressOrdered
      (createAssistantForUser c5CexEnv "u1" (some allOkSink)).events := by
  intro h
  have h3 := h.2.2
  have hev : (((createAssistantForUser c5CexEnv "u1" (some allOkSink)).events.filter
      (fun e => e.step == "verifying")).map (fun e => e.current)) =
      0 :: 1 :: 0 :: List.replicate 16 0 := by decide
  rw [hev] at h3
  rw [List.chain'_cons, List.chain'_cons] at h3
  obtain ⟨-, h10, -⟩ := h3
  omega

/-- Auxiliary: the last element of a list is a member. -/
theorem mem_of_getLast?_eq {α : Type} {l : List α} {a : α}
    (h : l.getLast? = some a) : a ∈ l := by
  obtain ⟨hne, heq⟩ := List.mem_getLast?_eq_getLast (by rw [Option.mem_def]; exact h)
  rw [heq]
  exact List.getLast_mem hne

/-- Auxiliary: gluing two chains whose elements are pairwise related. -/
theorem chain'_append_of_all {α : Type} (R : α → α → Prop) (l1 l2 : List α)
    (h1 : List.Chain' R l1) (h2 : List.Chain' R l2)
    (h12 : ∀ x ∈ l1, ∀ y ∈ l2, R x y) :
    List.Chain' R (l1 ++ l2) := by
  rw [List.chain'_append]
  refine ⟨h1, h2, ?_⟩
  intro x hx y hy
  exact h12 x (mem_of_getLast?_eq hx) y (List.mem_of_mem_head? hy)

/-- Auxiliary: a block of events of one step is rank-chained. -/
theorem chain_rank_of_const (c : Nat) (l : List ProgressEvent)
    (h : ∀ e ∈ l, stepRank e.step = c) :
    List.Chain' (fun x y => stepRank x.step ≤ stepRank y.step) l := by
  induction l with
  | nil => exact List.chain'_nil
  | cons x t ih =>
    rw [List.chain'_cons']
    constructor
    · intro y hy
      rw [h x (List.mem_cons_self x t), h y (List.mem_cons_of_mem x (List.mem_of_mem_head? hy))]
    · exact ih (fun e he => h e (List.mem_cons_of_mem x he))

/-- Auxiliary: membership through `withEvent`. -/
theorem withEvent_forall (sink : Sink) (e0 : ProgressEvent)
    (l : List ProgressEvent) (P : ProgressEvent → Prop)
    (h0 : P e0) (hl : ∀ e ∈ l, P e) : ∀ e ∈ withEvent sink e0 l, P e := by
  cases sink with
  | none => exact hl
  | some f =>
    intro e he
    rcases List.mem_cons.mp he with rfl | he1
    · exact h0
    · exact hl e he1

/-- Auxiliary: chaining through `withEvent`. -/
theorem withEvent_chain (sink : Sink) (e0 : ProgressEvent)
    (l : List ProgressEvent) (R : ProgressEvent → ProgressEvent → Prop)
    (hl : List.Chain' R l) (h0 : ∀ y ∈ l, R e0 y) :
    List.Chain' R (withEvent sink e0 l) := by
  cases sink with
  | none => exact hl
  | some f =>
    show List.Chain' R (e0 :: l)
    rw [List.chain'_cons']
    exact ⟨fun y hy => h0 y (List.mem_of_mem_head? hy), hl⟩

/-- Auxiliary: under a sink that succeeds on upload emissions, the upload
loop's trace consists of `uploading_docs` events with strictly increasing
counters, all at least the starting index. -/
theorem uploadDocsGo_events_shape (f : ProgressEvent → Bool) (total : Nat)
    (docs : List DocSpec)
    (hf : ∀ j t, f ⟨"uploading_docs", uploadMsg j t, j, t⟩ = true) :
    ∀ i, (∀ e ∈ (uploadDocsGo (some f) total i docs).events,
        e.step = "uploading_docs" ∧ i ≤ e.current) ∧
      List.Chain' (fun x y => x.current < y.current)
        (uploadDocsGo (some f) total i docs).events := by
  induction docs with
  | nil =>
    intro i
    exact ⟨fun e he => absurd he (List.not_mem_nil e), List.chain'_nil⟩
  | cons d rest ih =>
    intro i
    cases hd : d.onDisk
    · have hev : (uploadDocsGo (some f) total i (d :: rest)).events =
          (uploadDocsGo (some f) total (i + 1) rest).events := by
        simp [uploadDocsGo, hd]
      rw [hev]
      refine ⟨?_, (ih (i + 1)).2⟩
      intro e he
      obtain ⟨h1, h2⟩ := (ih (i + 1)).1 e he
      exact ⟨h1, by omega⟩
    · have hev : (uploadDocsGo (some f) total i (d :: rest)).events =
          ⟨"uploading_docs", uploadMsg i total, i, total⟩ ::
            (uploadDocsGo (some f) total (i + 1) rest).events := by
        simp [uploadDocsGo, hd, emitOk, hf i total, withEvent]
      rw [hev]
      constructor
      · intro e he
        rcases List.mem_cons.mp he with rfl | he1
        · exact ⟨rfl, le_refl i⟩
        · obtain ⟨h1, h2⟩ := (ih (i + 1)).1 e he1
          exact ⟨h1, by omega⟩
      · rw [List.chain'_cons']
        constructor
        · intro y hy
          have h2 := ((ih (i + 1)).1 y (List.mem_of_mem_head? hy)).2
          show i < y.current
          omega
        · exact (ih (i + 1)).2

/-- Auxiliary: every event of the verification loop is a `verifying` event
whose counter is an upstream-reported indexed count, and when the upstream
reports are non-decreasing across polls the emitted counters are too. -/
theorem verifyGo_events_mono (sink : Sink) (polls : Nat → PollResult)
    (hmono : ∀ j k sj sk, j ≤ k → polls j = .ok sj → polls k = .ok sk →
      countIndexed sj ≤ countIndexed sk) :
    ∀ fuel a,
      (∀ e ∈ (verifyGo sink polls a fuel).events, e.step = "verifying" ∧
        ∃ j s, a ≤ j ∧ polls j = .ok s ∧ e.current = countIndexed s) ∧
      List.Chain' (fun x y => x.current ≤ y.current)
        (verifyGo sink polls a fuel).events := by
  intro fuel
  induction fuel with
  | zero =>
    intro a
    exact ⟨fun e he => absurd he (List.not_mem_nil e), List.chain'_nil⟩
  | succ fl ih =>
    intro a
    cases hp : polls a with
    | error e0 =>
      have hev : (verifyGo sink polls a (fl + 1)).events =
          (verifyGo sink polls (a + 1) fl).events := by
        simp [verifyGo, hp]
      rw [hev]
      refine ⟨?_, (ih (a + 1)).2⟩
      intro e he
      obtain ⟨h1, j, s, hj1, hj2, hj3⟩ := (ih (a + 1)).1 e he
      exact ⟨h1, j, s, by omega, hj2, hj3⟩
    | ok statuses =>
      have hshift : ∀ e ∈ (verifyGo sink polls (a + 1) fl).events,
          e.step = "verifying" ∧ ∃ j s, a ≤ j ∧ polls j = .ok s ∧
            e.current = countIndexed s := by
        intro e he
        obtain ⟨h1, j, s, hj1, hj2, hj3⟩ := (ih (a + 1)).1 e he
        exact ⟨h1, j, s, by omega, hj2, hj3⟩
      have hhead : ∀ y ∈ (verifyGo sink polls (a + 1) fl).events,
          (⟨"verifying", verifyMsg (countIndexed statuses) statuses.length,
            countIndexed statuses, statuses.length⟩ : ProgressEvent).current ≤
            y.current := by
        intro y hy
        obtain ⟨h1, j, s, hj1, hj2, hj3⟩ := (ih (a + 1)).1 y hy
        have hle := hmono a j statuses s (by omega) hp hj2
        show countIndexed statuses ≤ y.current
        omega
      have he0 : (⟨"verifying", verifyMsg (countIndexed statuses) statuses.length,
          countIndexed statuses, statuses.length⟩ : ProgressEvent).step = "verifying" ∧
          ∃ j s, a ≤ j ∧ polls j = .ok s ∧
            (⟨"verifying", verifyMsg (countIndexed statuses) statuses.length,
              countIndexed statuses, statuses.length⟩ : ProgressEvent).current =
              countIndexed s :=
        ⟨rfl, a, statuses, le_refl a, hp, rfl⟩
      cases hemit : emitOk sink ⟨"verifying",
          verifyMsg (countIndexed statuses) statuses.length,
          countIndexed statuses, statuses.length⟩
      · have hev : (verifyGo sink polls a (fl + 1)).events =
            withEvent sink
              ⟨"verifying", verifyMsg (countIndexed statuses) statuses.length,
                countIndexed statuses, statuses.length⟩
              (verifyGo sink polls (a + 1) fl).events := by
          simp only [verifyGo, hp]
          rw [if_neg (by rw [hemit]; exact Bool.false_ne_true)]
        rw [hev]
        exact ⟨withEvent_forall sink _ _ _ he0 hshift,
          withEvent_chain sink _ _ _ (ih (a + 1)).2 hhead⟩
      · by_cases hcnd : 0 < statuses.length ∧ countIndexed statuses = statuses.length
        · have hev : (verifyGo sink polls a (fl + 1)).events =
              withEvent sink
                ⟨"verifying", verifyMsg (countIndexed statuses) statuses.length,
                  countIndexed statuses, statuses.length⟩ [] := by
            simp only [verifyGo, hp]
            rw [if_pos hcnd, if_pos hemit]
          rw [hev]
          refine ⟨withEvent_forall sink _ _ _ he0
            (fun e he => absurd he (List.not_mem_nil e)), ?_⟩
          exact withEvent_chain sink _ _ _ List.chain'_nil
            (fun y hy => absurd hy (List.not_mem_nil y))
        · have hev : (verifyGo sink polls a (fl + 1)).events =
              withEvent sink
                ⟨"verifying", verifyMsg (countIndexed statuses) statuses.length,
                  countIndexed statuses, statuses.length⟩
                (verifyGo sink polls (a + 1) fl).events := by
            simp only [verifyGo, hp]
            rw [if_neg hcnd, if_pos hemit]
          rw [hev]
          exact ⟨withEvent_forall sink _ _ _ he0 hshift,
            withEvent_chain sink _ _ _ (ih (a + 1)).2 hhead⟩

/-- Auxiliary: the full first-login trace — `creating_assistant`, then the
upload block, then the initial and per-attempt verifying events, then
`creating_thread` (and `complete` when the thread resolution succeeded) —
satisfies the claimed ordering, given the block properties. -/
theorem progressOrdered_build (up verify tail : List ProgressEvent)
    (hupS : ∀ e ∈ up, e.step = "uploading_docs")
    (hupC : List.Chain' (fun x y => x.current < y.current) up)
    (hverS : ∀ e ∈ verify, e.step = "verifying")
    (hverC : List.Chain' (fun x y => x.current ≤ y.current) verify)
    (htail : tail = [creatingThreadEvent] ∨
      tail = [creatingThreadEvent, completeEvent]) :
    progressOrdered (creatingEvent :: (up ++ (verifyInitEvent :: (verify ++ tail)))) := by
  have hrup : ∀ e ∈ up, stepRank e.step = 1 := by
    intro e he
    rw [hupS e he]
    decide
  have hrver : ∀ e ∈ verify, stepRank e.step = 2 := by
    intro e he
    rw [hverS e he]
    decide
  have hrtail : ∀ e ∈ tail, 3 ≤ stepRank e.step := by
    rcases htail with rfl | rfl
    · intro e he
      rcases List.mem_cons.mp he with rfl | he2
      · decide
      · exact absurd he2 (List.not_mem_nil e)
    · intro e he
      rcases List.mem_cons.mp he with rfl | he2
      · decide
      · rcases List.mem_cons.mp he2 with rfl | he3
        · decide
        · exact absurd he3 (List.not_mem_nil e)
  have htailChain : List.Chain' (fun x y => stepRank x.step ≤ stepRank y.step) tail := by
    rcases htail with rfl | rfl
    · exact List.chain'_singleton _
    · rw [List.chain'_cons]
      exact ⟨by decide, List.chain'_singleton _⟩
  have hA1mem : ∀ y ∈ verify ++ tail, 2 ≤ stepRank y.step := by
    intro y hy
    rcases List.mem_append.mp hy with h | h
    · rw [hrver y h]
    · have := hrtail y h
      omega
  have hA1chain : List.Chain' (fun x y => stepRank x.step ≤ stepRank y.step)
      (verify ++ tail) :=
    chain'_append_of_all _ verify tail (chain_rank_of_const 2 verify hrver) htailChain
      (fun x hx y hy => by
        rw [hrver x hx]
        have := hrtail y hy
        omega)
  have hA2chain : List.Chain' (fun x y => stepRank x.step ≤ stepRank y.step)
      (verifyInitEvent :: (verify ++ tail)) := by
    rw [List.chain'_cons']
    refine ⟨?_, hA1chain⟩
    intro y hy
    have h2 := hA1mem y (List.mem_of_mem_head? hy)
    show stepRank verifyInitEvent.step ≤ stepRank y.step
    have h3 : stepRank verifyInitEvent.step = 2 := by decide
    omega
  have hA2mem : ∀ y ∈ verifyInitEvent :: (verify ++ tail), 2 ≤ stepRank y.step := by
    intro y hy
    rcases List.mem_cons.mp hy with rfl | h
    · decide
    · exact hA1mem y h
  have hA3chain : List.Chain' (fun x y => stepRank x.step ≤ stepRank y.step)
      (up ++ (verifyInitEvent :: (verify ++ tail))) :=
    chain'_append_of_all _ up _ (chain_rank_of_const 1 up hrup) hA2chain
      (fun x hx y hy => by
        rw [hrup x hx]
        have := hA2mem y hy
        omega)
  have hA3mem : ∀ y ∈ up ++ (verifyInitEvent :: (verify ++ tail)),
      1 ≤ stepRank y.step := by
    intro y hy
    rcases List.mem_append.mp hy with h | h
    · rw [hrup y h]
    · have := hA2mem y h
      omega
  refine ⟨?_, ?_, ?_⟩
  · rw [List.chain'_cons']
    refine ⟨?_, hA3chain⟩
    intro y hy
    have h1 := hA3mem y (List.mem_of_mem_head? hy)
    show stepRank creatingEvent.step ≤ stepRank y.step
    have h0 : stepRank creatingEvent.step = 0 := by decide
    omega
  · have hfup : (creatingEvent :: (up ++ (verifyInitEvent :: (verify ++ tail)))).filter
        (fun e => e.step == "uploading_docs") = up := by
      rw [List.filter_cons_of_neg (by decide), List.filter_append]
      have h1 : up.filter (fun e => e.step == "uploading_docs") = up := by
        rw [List.filter_eq_self]
        intro e he
        rw [hupS e he]
        decide
      have h2 : (verifyInitEvent :: (verify ++ tail)).filter
          (fun e => e.step == "uploading_docs") = [] := by
        rw [List.filter_eq_nil_iff]
        intro e he hpe
        have h3 : e.step = "uploading_docs" := beq_iff_eq.mp hpe
        rcases List.mem_cons.mp he with rfl | h4
        · exact absurd h3 (by decide)
        · rcases List.mem_append.mp h4 with h5 | h5
          · rw [hverS e h5] at h3
            exact absurd h3 (by decide)
          · have h6 := hrtail e h5
            rw [h3] at h6
            have h7 : stepRank "uploading_docs" = 1 := by decide
            omega
      rw [h1, h2, List.append_nil]
    rw [hfup]
    exact (List.chain'_map _).mpr hupC
  · have hfver : (creatingEvent :: (up ++ (verifyInitEvent :: (verify ++ tail)))).filter
        (fun e => e.step == "verifying") = verifyInitEvent :: verify := by
      rw [List.filter_cons_of_neg (by decide), List.filter_append]
      have h1 : up.filter (fun e => e.step == "verifying") = [] := by
        rw [List.filter_eq_nil_iff]
        intro e he hpe
        have h3 := beq_iff_eq.mp hpe
        rw [hupS e he] at h3
        exact absurd h3 (by decide)
      have h2 : (verifyInitEvent :: (verify ++ tail)).filter
          (fun e => e.step == "verifying") = verifyInitEvent :: verify := by
        rw [List.filter_cons_of_pos (by decide), List.filter_append]
        have h3 : verify.filter (fun e => e.step == "verifying") = verify := by
          rw [List.filter_eq_self]
          intro e he
          rw [hverS e he]
          decide
        have h4 : tail.filter (fun e => e.step == "verifying") = [] := by
          rw [List.filter_eq_nil_iff]
          intro e he hpe
          have h5 := hrtail e he
          rw [beq_iff_eq.mp hpe] at h5
          have h6 : stepRank "verifying" = 2 := by decide
          omega
        rw [h3, h4, List.append_nil]
      rw [h1, h2, List.nil_append]
    rw [hfver, List.map_cons]
    rw [List.chain'_cons']
    constructor
    · intro y hy
      show verifyInitEvent.current ≤ y
      have h0 : verifyInitEvent.current = 0 := rfl
      omega
    · exact (List.chain'_map _).mpr hverC

/-- C5 (amended): for every first-login provisioning run of the chat mode
whose progress emissions are delivered, the events fire in the step order
`creating_assistant → uploading_docs → verifying → creating_thread →
complete`, the uploading counters strictly increase, and the verifying
counters are exactly the upstream-reported indexed counts — they are
non-decreasing provided the upstream reports are non-decreasing across
polls (which the code does not itself enforce; see the counterexample). -/
theorem claim_C5_progress_order_amended (env : ChatEnv) (uid aid : String)
    (hws : ∀ e, env.ws e = true)
    (hmain : getUserAssistant env.prov.table env.mainReadFault uid = none)
    (hfast : getUserAssistant env.prov.table env.fastFault uid = none)
    (hrecheck : getUserAssistant env.prov.table env.recheckFault uid = none)
    (hinner : getUserAssistant env.prov.table env.prov.readFault uid = none)
    (hcreate : env.prov.createResult = .ok aid)
    (hstore : env.prov.storeFault = false)
    (hmono : ∀ j k sj sk, j ≤ k → env.prov.polls j = .ok sj →
      env.prov.polls k = .ok sk → countIndexed sj ≤ countIndexed sk) :
    progressOrdered (runChatModeProvision env uid).1 := by
  have hok := createAssistantForUser_ok env.prov uid aid (some env.ws) hinner
    hcreate hstore (hws creatingEvent)
    (uploadDocsGo_sink_ok env.ws env.prov.docs.length env.prov.docs
      (fun j t => hws _) 1)
    (hws verifyInitEvent)
  have hupshape := uploadDocsGo_events_shape env.ws env.prov.docs.length
    env.prov.docs (fun j t => hws _) 1
  have hvershape := verifyGo_events_mono (some env.ws) env.prov.polls hmono 18 0
  have hgocEq : getOrCreateAssistant env.fastFault env.recheckFault env.prov uid
      (some env.ws) = createAssistantForUser env.prov uid (some env.ws) := by
    simp [getOrCreateAssistant, hfast, hrecheck]
  have hrun : (runChatModeProvision env uid).1 =
      (createAssistantForUser env.prov uid (some env.ws)).events ++
        [creatingThreadEvent] ∨
      (runChatModeProvision env uid).1 =
      ((createAssistantForUser env.prov uid (some env.ws)).events ++
        [creatingThreadEvent]) ++ [completeEvent] := by
    cases ht : (getOrCreateThreadAsync env.thread uid).result with
    | error e =>
      left
      simp [runChatModeProvision, hmain, hgocEq, hok.1, hws, ht]
    | ok tid =>
      right
      simp [runChatModeProvision, hmain, hgocEq, hok.1, hws, ht]
  have hevents : (createAssistantForUser env.prov uid (some env.ws)).events =
      creatingEvent ::
        ((uploadSharedDocuments (some env.ws) env.prov.docs).events ++
          verifyInitEvent :: (verifyGo (some env.ws) env.prov.polls 0 18).events) :=
    hok.2.2.2.2
  rcases hrun with h | h
  · rw [h, hevents]
    have hshape : (creatingEvent ::
        ((uploadSharedDocuments (some env.ws) env.prov.docs).events ++
          verifyInitEvent :: (verifyGo (some env.ws) env.prov.polls 0 18).events)) ++
        [creatingThreadEvent] =
        creatingEvent ::
          ((uploadSharedDocuments (some env.ws) env.prov.docs).events ++
            (verifyInitEvent ::
              ((verifyGo (some env.ws) env.prov.polls 0 18).events ++
                [creatingThreadEvent]))) := by
      simp [List.append_assoc]
    rw [hshape]
    exact progressOrdered_build _ _ _
      (fun e he => (hupshape.1 e he).1) hupshape.2
      (fun e he => (hvershape.1 e he).1) hvershape.2 (Or.inl rfl)
  · rw [h, hevents]
    have hshape : ((creatingEvent ::
        ((uploadSharedDocuments (some env.ws) env.prov.docs).events ++
          verifyInitEvent :: (verifyGo (some env.ws) env.prov.polls 0 18).events)) ++
        [creatingThreadEvent]) ++ [completeEvent] =
        creatingEvent ::
          ((uploadSharedDocuments (some env.ws) env.prov.docs).events ++
            (verifyInitEvent ::
              ((verifyGo (some env.ws) env.prov.polls 0 18).events ++
                [creatingThreadEvent, completeEvent]))) := by
      simp [List.append_assoc]
    rw [hshape]
    exact progressOrdered_build _ _ _
      (fun e he => (hupshape.1 e he).1) hupshape.2
      (fun e he => (hvershape.1 e he).1) hvershape.2 (Or.inr rfl)

/-- The chat-mode environment of the amended-C5 witness: a first login with
no faults, no shared documents, and empty poll reports. -/
def c5WitEnv : ChatEnv :=
  { prov := provEnvFresh, mainReadFault := false, fastFault := false,
    recheckFault := false, thread := threadEnvFresh, ws := fun _ => true }

/-- Witness for the amended C5: the first-login chat-mode run under
`c5WitEnv` emits its provisioning events in the claimed order. -/
theorem claim_C5_progress_order_amended_witness :
    progressOrdered (runChatModeProvision c5WitEnv "u1").1 := by
  refine claim_C5_progress_order_amended c5WitEnv "u1" "asst_1"
    (fun e => rfl) rfl rfl rfl rfl rfl rfl ?_
  intro j k sj sk hjk hj hk
  have hsj : sj = [] := by
    have : (Except.ok [] : PollResult) = .ok sj := hj
    injection this with h2
    exact h2.symm
  have hsk : sk = [] := by
    have : (Except.ok [] : PollResult) = .ok sk := hk
    injection this with h2
    exact h2.symm
  rw [hsj, hsk]

end Concierge
